import Mathlib

/-!
Verification of the blork-tabs snap-chain / anchor / drag subsystem.

The registry of panels (a JS `Map<string, PanelState>` iterated in insertion
order) is modelled as a `List Panel`; `Map.get` is `List.find?` on the id and
in-place mutation of a panel object is `updatePanel` (an id-keyed `List.map`).
Panel geometry (`getBoundingClientRect` / `offsetWidth` / `style.left`) is
modelled by the `x`, `y`, `width`, `height` fields, read and written through
the registry.
-/

inductive Side where
  | left
  | right
deriving DecidableEq, Repr

structure Panel where
  id : String
  x : Int
  y : Int
  width : Int
  height : Int
  snappedTo : Option String
  snappedFrom : Option String
deriving DecidableEq, Repr

abbrev Registry := List Panel

structure Config where
  snapThreshold : Int
  panelGap : Int
  panelMargin : Int
  anchorThreshold : Int
  defaultPanelWidth : Int
deriving DecidableEq, Repr

/-- The resolved DEFAULT_CONFIG numeric values from TabManager. -/
def defaultConfig : Config :=
  { snapThreshold := 50, panelGap := 0, panelMargin := 16,
    anchorThreshold := 80, defaultPanelWidth := 300 }

/-- `panels.get(pid)` on the id-keyed map. -/
def findPanel (r : Registry) (pid : String) : Option Panel :=
  r.find? (fun p => p.id == pid)

/-- In-place mutation of the panel object with id `pid`. -/
def updatePanel (r : Registry) (pid : String) (f : Panel → Panel) : Registry :=
  r.map (fun p => if p.id = pid then f p else p)

def setSnappedTo (pid : String) (v : Option String) (r : Registry) : Registry :=
  updatePanel r pid (fun q => { q with snappedTo := v })

def setSnappedFrom (pid : String) (v : Option String) (r : Registry) : Registry :=
  updatePanel r pid (fun q => { q with snappedFrom := v })

def setPos (pid : String) (nx ny : Int) (r : Registry) : Registry :=
  updatePanel r pid (fun q => { q with x := nx, y := ny })

/-- SnapChain.snapPanels: `leftPanel.snappedTo = rightPanel.id` then
`rightPanel.snappedFrom = leftPanel.id`. -/
def snapPanels (lid rid : String) (r : Registry) : Registry :=
  setSnappedFrom rid (some lid) (setSnappedTo lid (some rid) r)

/-- SnapChain.unsnap: clears each direction only if the pair is actually
linked that way; the second guard reads state after the first clear. -/
def unsnap (lid rid : String) (r : Registry) : Registry :=
  let r1 :=
    match findPanel r lid with
    | some l => if l.snappedTo = some rid then setSnappedTo lid none r else r
    | none => r
  match findPanel r1 rid with
  | some rt => if rt.snappedFrom = some lid then setSnappedFrom rid none r1 else r1
  | none => r1

/-- SnapChain.detachFromGroup: clears the outgoing snap (and the reciprocal
`snappedFrom` on the right neighbour) first, then the incoming snap (and the
reciprocal `snappedTo` on the left neighbour), re-reading the panel between
the two steps as the JS object mutation does. -/
def detachFromGroup (pid : String) (r : Registry) : Registry :=
  let r1 :=
    match findPanel r pid with
    | none => r
    | some p =>
      match p.snappedTo with
      | none => r
      | some tid => setSnappedTo pid none (setSnappedFrom tid none r)
  match findPanel r1 pid with
  | none => r1
  | some p1 =>
    match p1.snappedFrom with
    | none => r1
    | some fid => setSnappedFrom pid none (setSnappedTo fid none r1)

/-- Spec section 8 link symmetry: for all panels A, B in the registry,
`A.snappedTo == B.id` iff `B.snappedFrom == A.id`. -/
def LinkSym (r : Registry) : Prop :=
  ∀ a ∈ r, ∀ b ∈ r, (a.snappedTo = some b.id ↔ b.snappedFrom = some a.id)

instance (r : Registry) : Decidable (LinkSym r) := by
  unfold LinkSym; infer_instance

def NodupIds (r : Registry) : Prop := (r.map Panel.id).Nodup

instance (r : Registry) : Decidable (NodupIds r) := by
  unfold NodupIds; infer_instance

/-- Canonical form of clearing the chain edge aid → bid: aid loses its
outgoing link, bid loses its incoming link. -/
def GclearEdge (aid bid : String) (x : Panel) : Panel :=
  { x with snappedTo := if x.id = aid then none else x.snappedTo,
           snappedFrom := if x.id = bid then none else x.snappedFrom }

/-- Canonical form of creating the chain edge lid → rid. -/
def Gsnap (lid rid : String) (x : Panel) : Panel :=
  { x with snappedTo := if x.id = lid then some rid else x.snappedTo,
           snappedFrom := if x.id = rid then some lid else x.snappedFrom }

def GclearFromOnly (rid : String) (x : Panel) : Panel :=
  { x with snappedFrom := if x.id = rid then none else x.snappedFrom }

def GclearToOnly (lid : String) (x : Panel) : Panel :=
  { x with snappedTo := if x.id = lid then none else x.snappedTo }

structure SnapTarget where
  targetId : String
  side : Side
  x : Int
  y : Int
deriving DecidableEq, Repr

/-- The candidate scan of SnapChain.findSnapTarget: iterate the registry in
map order, skip moving panels, require vertical overlap within
`2 * snapThreshold` (strict), then test the two hypothetical docking
x-positions against `snapThreshold` (strict) together with the occupancy of
the corresponding link slot on the target. -/
def findSnapTargetLoop (movingIds : List String) (x y totalWidth : Int)
    (cfg : Config) : Registry → Option SnapTarget
  | [] => none
  | t :: rest =>
    if t.id ∈ movingIds then findSnapTargetLoop movingIds x y totalWidth cfg rest
    else if ¬ (|y - t.y| < cfg.snapThreshold * 2) then
      findSnapTargetLoop movingIds x y totalWidth cfg rest
    else
      let snapToLeftX := t.x - totalWidth - cfg.panelGap
      if |x - snapToLeftX| < cfg.snapThreshold ∧ t.snappedFrom = none then
        some { targetId := t.id, side := Side.left, x := snapToLeftX, y := t.y }
      else
        let snapToRightX := t.x + t.width + cfg.panelGap
        if |x - snapToRightX| < cfg.snapThreshold ∧ t.snappedTo = none then
          some { targetId := t.id, side := Side.right, x := snapToRightX, y := t.y }
        else findSnapTargetLoop movingIds x y totalWidth cfg rest

/-- SnapChain.findSnapTarget. The moving panels are passed as the live panel
objects (ordered leftmost first); geometry is read from them, candidates are
scanned in the registry. -/
def findSnapTarget (moving : List Panel) (r : Registry) (cfg : Config) :
    Option SnapTarget :=
  match moving with
  | [] => none
  | lm :: _ =>
    let totalWidth :=
      (moving.foldl (fun acc p => acc + p.width + cfg.panelGap) 0) - cfg.panelGap
    findSnapTargetLoop (moving.map Panel.id) lm.x lm.y totalWidth cfg r

/-- The positioning loop of snapPanelsToTarget: lay the moving panels out in
a row starting at `x`, shared `y`, advancing by each panel's width plus the
gap. -/
def positionRow (cfg : Config) (moving : List Panel) (x y : Int)
    (r : Registry) : Registry :=
  match moving with
  | [] => r
  | p :: rest => positionRow cfg rest (x + p.width + cfg.panelGap) y (setPos p.id x y r)

/-- SnapChain.snapPanelsToTarget: no-op when the target id is unknown;
otherwise position the row and establish exactly one link between the
group's boundary panel and the target. -/
def snapPanelsToTarget (moving : List Panel) (targetId : String) (side : Side)
    (x y : Int) (r : Registry) (cfg : Config) : Registry :=
  match findPanel r targetId with
  | none => r
  | some _ =>
    match moving with
    | [] => r
    | lm :: rest =>
      let rm := (lm :: rest).getLast (List.cons_ne_nil lm rest)
      let r2 := positionRow cfg (lm :: rest) x y r
      match side with
      | Side.left => snapPanels rm.id targetId r2
      | Side.right => setSnappedTo targetId (some lm.id) (setSnappedFrom lm.id (some targetId) r2)

structure Position where
  x : Int
  y : Int
deriving DecidableEq, Repr

structure AnchorSnapResult where
  anchorId : String
  dockPanelIndex : Nat
  positions : List Position
deriving DecidableEq, Repr

/-- DragManager.handleMouseUp: re-run findSnapTarget; when a panel-snap
target exists commit it via snapPanelsToTarget; only otherwise consult the
anchor callback and apply its precomputed positions. Returns the new
registry together with the snap target and anchor result that were
committed (as reported to onDragEnd). -/
def applyAnchorPositions (moving : List Panel) (ps : List Position)
    (r : Registry) : Registry :=
  match moving, ps with
  | m :: ms, q :: qs => applyAnchorPositions ms qs (setPos m.id q.x q.y r)
  | _, _ => r

def handleMouseUp (findAnchorTarget : List Panel → Option AnchorSnapResult)
    (moving : List Panel) (r : Registry) (cfg : Config) :
    Registry × Option SnapTarget × Option AnchorSnapResult :=
  match findSnapTarget moving r cfg with
  | some t =>
    (snapPanelsToTarget moving t.targetId t.side t.x t.y r cfg, some t, none)
  | none =>
    match findAnchorTarget moving with
    | some a => (applyAnchorPositions moving a.positions r, none, some a)
    | none => (r, none, none)

def mkP (i : String) (px py w h : Int) (st sf : Option String) : Panel :=
  { id := i, x := px, y := py, width := w, height := h,
    snappedTo := st, snappedFrom := sf }

def tgtT : Panel := mkP "T" 300 0 100 30 none none

def movM (px py : Int) : Panel := mkP "M" px py 100 30 none none

def regC5 (px py : Int) : Registry := [movM px py, tgtT]

/-- The leftward traversal of getConnectedGroup: follow snappedFrom,
prepending each panel, guarded by the visited set. The JS while-loop has no
fuel; fuel `r.length + 1` is always enough because each iteration records a
fresh id drawn from the registry ids plus the start id (see
getConnectedGroup_stable). Returns the group so far plus the visited set. -/
def walkLeft (r : Registry) : Nat → List String → Panel → List Panel →
    List Panel × List String
  | 0, visited, _, acc => (acc, visited)
  | fuel + 1, visited, cur, acc =>
    if cur.id ∈ visited then (acc, visited)
    else
      let visited2 := cur.id :: visited
      let acc2 := cur :: acc
      match cur.snappedFrom with
      | none => (acc2, visited2)
      | some fid =>
        match findPanel r fid with
        | none => (acc2, visited2)
        | some nxt => walkLeft r fuel visited2 nxt acc2

/-- The rightward traversal of getConnectedGroup: follow snappedTo,
appending each panel, sharing the visited set with the left walk. -/
def walkRight (r : Registry) : Nat → List String → Panel → List Panel →
    List Panel
  | 0, _, _, acc => acc
  | fuel + 1, visited, cur, acc =>
    if cur.id ∈ visited then acc
    else
      let visited2 := cur.id :: visited
      let acc2 := acc ++ [cur]
      match cur.snappedTo with
      | none => acc2
      | some tid =>
        match findPanel r tid with
        | none => acc2
        | some nxt => walkRight r fuel visited2 nxt acc2

def getConnectedGroupFuel (fuel : Nat) (startPanel : Panel) (r : Registry) :
    List Panel :=
  let lw := walkLeft r fuel [] startPanel []
  match startPanel.snappedTo with
  | none => lw.1
  | some tid =>
    match findPanel r tid with
    | none => lw.1
    | some nxt => walkRight r fuel lw.2 nxt lw.1

/-- SnapChain.getConnectedGroup. -/
def getConnectedGroup (startPanel : Panel) (r : Registry) : List Panel :=
  getConnectedGroupFuel (r.length + 1) startPanel r

/-- The fresh ids the walk can still visit, starting at `cur`. -/
def walkBound (r : Registry) (cid : String) (visited : List String) : Nat :=
  ((insert cid (r.map Panel.id).toFinset) \ visited.toFinset).card

def pCycA : Panel := mkP "A" 0 0 10 10 none (some "B")

def pCycB : Panel := mkP "B" 40 0 10 10 none (some "A")

def regCyc : Registry := [pCycA, pCycB]

def pRT1 : Panel := mkP "P1" 0 0 100 30 (some "P2") none

def pRT2 : Panel := mkP "P2" 100 0 100 30 (some "P3") (some "P1")

def pRT3 : Panel := mkP "P3" 200 0 100 30 none (some "P2")

def regRT : Registry := [pRT1, pRT2, pRT3]

def pFree : Panel := mkP "C" 400 0 100 30 none none

def regC7 : Registry := [pRT1, pRT2, pFree]

structure Anchor where
  id : String
  x : Int
  y : Int
deriving DecidableEq, Repr

/-- AnchorManager.removeAnchor: findIndex on the anchor list, splice on hit,
`false` on miss. The indicator teardown is cosmetic and not modelled. -/
def removeAnchor (anchors : List Anchor) (aid : String) : Bool × List Anchor :=
  match anchors.findIdx? (fun a => a.id == aid) with
  | none => (false, anchors)
  | some i => (true, anchors.eraseIdx i)

/-- TabManager.removePanel: `false` for an unknown id; otherwise detach from
any snap chain and delete the map entry. -/
def removePanel (r : Registry) (pid : String) : Bool × Registry :=
  match findPanel r pid with
  | none => (false, r)
  | some _ => (true, (detachFromGroup pid r).filter (fun q => !(q.id == pid)))

/-- SnapChain.updateSnappedPositions, first scan: the first panel in map
order with `snappedTo === null && snappedFrom !== null`; failing that, the
first with `snappedFrom !== null`. -/
def findRightmost (r : Registry) : Option Panel :=
  match r.find? (fun s => s.snappedTo.isNone && s.snappedFrom.isSome) with
  | some s => some s
  | none => r.find? (fun s => s.snappedFrom.isSome)

/-- The leftward repositioning loop of updateSnappedPositions. The JS while
loop carries no fuel and no visited set; fuel `r.length` covers every walk
that terminates (every duplicate-free chain). Each step repositions the
left neighbour next to the current panel's live rectangle. -/
def reflowLoop (cfg : Config) : Nat → Registry → String → Registry
  | 0, r, _ => r
  | fuel + 1, r, curId =>
    match findPanel r curId with
    | none => r
    | some cur =>
      match cur.snappedFrom with
      | none => r
      | some fid =>
        match findPanel r fid with
        | none => r
        | some _ =>
          reflowLoop cfg fuel
            (updatePanel r fid
              (fun q => { q with x := cur.x - q.width - cfg.panelGap, y := cur.y }))
            fid

def updateSnappedPositions (cfg : Config) (r : Registry) : Registry :=
  match findRightmost r with
  | none => r
  | some rm => reflowLoop cfg r.length r rm.id

/-- `leftWalkOk r c D` states that the snappedFrom walk starting at `c`
passes exactly through `D` and then stops at a panel with no left
neighbour. -/
def leftWalkOk (r : Registry) : String → List String → Bool
  | c, [] =>
    match findPanel r c with
    | some p => p.snappedFrom.isNone
    | none => false
  | c, f :: rest =>
    match findPanel r c with
    | some p => p.snappedFrom == some f && leftWalkOk r f rest
    | none => false

/-- In registry `R`, panel `b` sits immediately left of panel `a`: its right
edge touches `a` (plus the configured gap) and its y matches. -/
def adjacentPosB (R : Registry) (cfg : Config) (a b : String) : Bool :=
  match findPanel R a, findPanel R b with
  | some pa, some pb => pb.x == pa.x - pb.width - cfg.panelGap && pb.y == pa.y
  | _, _ => false

def cxA : Panel := mkP "A" 40 0 100 30 (some "B") none

def cxB : Panel := mkP "B" 100 0 100 30 none (some "A")

def cxC : Panel := mkP "C" 500 50 100 30 (some "D") none

def cxD : Panel := mkP "D" 800 90 100 30 none (some "C")

def regTwoChains : Registry := [cxA, cxB, cxC, cxD]

def wfP1 : Panel := mkP "P1" 999 7 100 30 (some "P2") none

def wfP2 : Panel := mkP "P2" 300 0 120 30 (some "P3") (some "P1")

def wfP3 : Panel := mkP "P3" 600 40 100 30 none (some "P2")

def regOneChain : Registry := [wfP1, wfP2, wfP3]

def sA : Panel := mkP "A" 0 0 100 30 (some "B") none

def sB : Panel := mkP "B" 100 0 100 30 none (some "A")

def sC : Panel := mkP "C" 300 0 100 30 none none

def regSym : Registry := [sA, sB, sC]

/-- Character-list substring test modelling JS String.prototype.includes. -/
def subAt : List Char → List Char → Bool
  | [], _ => true
  | _ :: _, [] => false
  | a :: as, b :: bs => a == b && subAt as bs

def hasSubstring : List Char → List Char → Bool
  | pat, [] => pat.isEmpty
  | pat, c :: cs => subAt pat (c :: cs) || hasSubstring pat cs

/-- `anchor.config.id.includes('bottom')`. -/
def idHasBottom (s : String) : Bool := hasSubstring "bottom".toList s.toList

/-- Squared Euclidean distance. The source compares `Math.sqrt` distances
only with `<`; square root is strictly monotone on nonnegative reals, so
every comparison is modelled exactly on the squares. -/
def distSq (px py ax ay : Int) : Int :=
  (px - ax) * (px - ax) + (py - ay) * (py - ay)

/-- The grip scan of findNearestAnchor: the index of the panel whose
top-left corner is closest to the anchor point (strict improvement, so the
first index wins ties), together with its squared distance. -/
def closestGripAux (ax ay : Int) : List Panel → Nat → Nat → Int → Nat × Int
  | [], _, bi, bd => (bi, bd)
  | p :: rest, i, bi, bd =>
    if distSq p.x p.y ax ay < bd then
      closestGripAux ax ay rest (i + 1) i (distSq p.x p.y ax ay)
    else closestGripAux ax ay rest (i + 1) bi bd

def closestGrip (ax ay : Int) : List Panel → Nat × Int
  | [] => (0, 0)
  | p :: rest => closestGripAux ax ay rest 1 0 (distSq p.x p.y ax ay)

def padDefault : Panel := mkP "" 0 0 0 0 none none

def heightAt (moving : List Panel) (i : Nat) : Int := (moving.getD i padDefault).height

def sumWidthsGap (gap : Int) (ps : List Panel) : Int :=
  ps.foldl (fun a p => a + p.width + gap) 0

/-- Lay the group out left to right from startX at shared y, advancing by
width plus gap. -/
def layoutFrom (gap ay : Int) : List Panel → Int → List Position
  | [], _ => []
  | p :: rest, startX =>
    { x := startX, y := ay } :: layoutFrom gap ay rest (startX + p.width + gap)

/-- The group layout when the panel at `dockIdx` has its grip at `ax`: walk
left from the docking index subtracting width plus gap, then fill left to
right. -/
def layoutAt (moving : List Panel) (gap ax ay : Int) (dockIdx : Nat) :
    List Position :=
  layoutFrom gap ay moving (ax - sumWidthsGap gap (moving.take dockIdx))

def leftmostXOf : List Position → Int
  | [] => 0
  | q :: _ => q.x

def rightmostXOf (ps : List Position) (moving : List Panel) : Int :=
  match ps.getLast?, moving.getLast? with
  | some lp, some mp => lp.x + mp.width
  | _, _ => 0

/-- The on-screen test of findNearestAnchor for docking index `i`. -/
def layoutFits (moving : List Panel) (gap ax ay winW : Int) (i : Nat) : Prop :=
  leftmostXOf (layoutAt moving gap ax ay i) ≥ 0 ∧
  rightmostXOf (layoutAt moving gap ax ay i) moving ≤ winW

instance (moving : List Panel) (gap ax ay winW : Int) (i : Nat) :
    Decidable (layoutFits moving gap ax ay winW i) := by
  unfold layoutFits
  infer_instance

/-- The fallback scan of findNearestAnchor: try docking indices in order
and accept the first whose layout fits on screen. -/
def fallbackAux (moving : List Panel) (gap ax ay winW : Int) :
    Nat → Nat → Option (Nat × List Position)
  | _, 0 => none
  | i, rem + 1 =>
    if layoutFits moving gap ax ay winW i then
      some (i, layoutAt moving gap ax ay i)
    else fallbackAux moving gap ax ay winW (i + 1) rem

def fallbackSearch (moving : List Panel) (gap ax ay winW : Int) :
    Option (Nat × List Position) :=
  fallbackAux moving gap ax ay winW 0 moving.length

/-- `closestDist < bestDist` with bestDist starting at Infinity. -/
def betterDist (cd : Int) : Option (Int × AnchorSnapResult) → Bool
  | none => true
  | some (bd, _) => cd < bd

/-- One anchor of the findNearestAnchor scan: skip unless the anchor point
is within anchorThreshold of the group bounding box; find the grip-closest
panel; compute the docking y (bottom anchors subtract the docking panel's
height); lay out; on out-of-bounds run the fallback; commit to best only
on strictly smaller grip distance. -/
def anchorStep (moving : List Panel) (cfg : Config) (winW : Int)
    (gL gR gT gB : Int) (a : Anchor)
    (best : Option (Int × AnchorSnapResult)) :
    Option (Int × AnchorSnapResult) :=
  if ¬ (a.x ≥ gL - cfg.anchorThreshold ∧ a.x ≤ gR + cfg.anchorThreshold ∧
        a.y ≥ gT - cfg.anchorThreshold ∧ a.y ≤ gB + cfg.anchorThreshold) then
    best
  else
    let ci := (closestGrip a.x a.y moving).1
    let cd := (closestGrip a.x a.y moving).2
    let ay := if idHasBottom a.id then a.y - heightAt moving ci else a.y
    let ps := layoutAt moving cfg.panelGap a.x ay ci
    if leftmostXOf ps < 0 ∨ rightmostXOf ps moving > winW then
      match fallbackSearch moving cfg.panelGap a.x ay winW with
      | some (j, tps) =>
        if betterDist cd best then some (cd, ⟨a.id, j, tps⟩) else best
      | none => best
    else
      if betterDist cd best then some (cd, ⟨a.id, ci, ps⟩) else best

def anchorLoop (moving : List Panel) (cfg : Config) (winW : Int)
    (gL gR gT gB : Int) :
    List Anchor → Option (Int × AnchorSnapResult) →
      Option (Int × AnchorSnapResult)
  | [], best => best
  | a :: rest, best =>
    anchorLoop moving cfg winW gL gR gT gB rest
      (anchorStep moving cfg winW gL gR gT gB a best)

/-- AnchorManager.findNearestAnchor. The group bounding box comes from the
first panel's rectangle (left, top, bottom) and the last panel's right
edge; `winW` is `window.innerWidth`. -/
def findNearestAnchor (anchors : List Anchor) (moving : List Panel)
    (cfg : Config) (winW : Int) : Option AnchorSnapResult :=
  match moving, anchors with
  | [], _ => none
  | _ :: _, [] => none
  | m0 :: mrest, a0 :: arest =>
    let lastP := (m0 :: mrest).getLast (List.cons_ne_nil m0 mrest)
    (anchorLoop (m0 :: mrest) cfg winW m0.x (lastP.x + lastP.width) m0.y
      (m0.y + m0.height) (a0 :: arest) none).map Prod.snd

def uniformY : List Position → Bool
  | [] => true
  | q :: rest => rest.all (fun z => z.y == q.y)

/-- Positions paired with panels: each next position sits at the previous
one plus the previous panel's width plus the gap. -/
def rowSpaced (gap : Int) : List Panel → List Position → Bool
  | _, [] => true
  | [], _ :: _ => true
  | p :: ps, q :: qs =>
    match qs with
    | [] => true
    | q2 :: _ => q2.x == q.x + p.width + gap && rowSpaced gap ps qs

/-- Every property claim C10 makes of a returned anchor layout. -/
def GoodLayout (moving : List Panel) (cfg : Config) (winW : Int)
    (res : AnchorSnapResult) : Prop :=
  res.positions.length = moving.length ∧
  uniformY res.positions = true ∧
  rowSpaced cfg.panelGap moving res.positions = true ∧
  leftmostXOf res.positions ≥ 0 ∧
  rightmostXOf res.positions moving ≤ winW

def fbP1 : Panel := mkP "F1" 350 0 300 100 none none

def fbP2 : Panel := mkP "F2" 650 0 300 100 none none

def fbP3 : Panel := mkP "F3" 950 0 300 100 none none

def fbMoving : List Panel := [fbP1, fbP2, fbP3]

def fbAnchor : Anchor := { id := "a", x := 400, y := 10 }

def flP1 : Panel := mkP "G1" 0 0 300 100 none none

def flP2 : Panel := mkP "G2" 300 0 300 100 none none

def flP3 : Panel := mkP "G3" 600 0 300 100 none none

def flMoving : List Panel := [flP1, flP2, flP3]

def flAnchor : Anchor := { id := "a2", x := -50, y := 10 }

theorem findPanel_mem {r : Registry} {pid : String} {p : Panel}
    (h : findPanel r pid = some p) : p ∈ r ∧ p.id = pid := by
  unfold findPanel at h
  refine ⟨List.mem_of_find?_eq_some h, ?_⟩
  have := List.find?_some h
  simpa using this

theorem findPanel_eq_none {r : Registry} {pid : String} :
    findPanel r pid = none ↔ ∀ p ∈ r, p.id ≠ pid := by
  unfold findPanel
  rw [List.find?_eq_none]
  simp

theorem findPanel_map {r : Registry} (G : Panel → Panel) {pid : String}
    (hid : ∀ x, (G x).id = x.id) :
    findPanel (r.map G) pid = (findPanel r pid).map G := by
  induction r with
  | nil => simp [findPanel]
  | cons p rest ih =>
    by_cases h : p.id = pid
    · simp [findPanel, List.find?_cons, hid, h]
    · unfold findPanel at ih ⊢
      simp only [List.map_cons, List.find?_cons]
      have h1 : ((G p).id == pid) = false := by
        simp [hid, h]
      have h2 : (p.id == pid) = false := by simp [h]
      rw [h1, h2]
      exact ih

theorem updatePanel_eq_map (r : Registry) (pid : String) (f : Panel → Panel) :
    updatePanel r pid f = r.map (fun p => if p.id = pid then f p else p) := rfl

theorem mem_id_unique {r : Registry} {a b : Panel} (hN : NodupIds r)
    (ha : a ∈ r) (hb : b ∈ r) (hid : a.id = b.id) : a = b := by
  have h2 : ∀ x ∈ r, ∀ y ∈ r, Panel.id x = Panel.id y → x = y :=
    List.inj_on_of_nodup_map hN
  exact h2 a ha b hb hid

theorem findPanel_unique {r : Registry} {pid : String} {p a : Panel}
    (hN : NodupIds r) (hp : findPanel r pid = some p)
    (ha : a ∈ r) (haid : a.id = pid) : a = p := by
  obtain ⟨hpm, hpid⟩ := findPanel_mem hp
  exact mem_id_unique hN ha hpm (by rw [haid, hpid])

theorem GclearEdge_id (aid bid : String) (x : Panel) :
    (GclearEdge aid bid x).id = x.id := rfl

theorem Gsnap_id (lid rid : String) (x : Panel) :
    (Gsnap lid rid x).id = x.id := rfl

theorem bridge_clear1 (r : Registry) (aid bid : String) :
    setSnappedTo aid none (setSnappedFrom bid none r) = r.map (GclearEdge aid bid) := by
  unfold setSnappedTo setSnappedFrom updatePanel
  rw [List.map_map]
  apply List.map_congr_left
  intro x _
  simp only [Function.comp_apply]
  by_cases h2 : x.id = bid
  · by_cases h1 : x.id = aid
    · rw [if_pos h2, if_pos (show ({ x with snappedFrom := none } : Panel).id = aid from h1)]
      unfold GclearEdge
      rw [if_pos h1, if_pos h2]
    · rw [if_pos h2, if_neg (show ¬ ({ x with snappedFrom := none } : Panel).id = aid from h1)]
      unfold GclearEdge
      rw [if_neg h1, if_pos h2]
  · by_cases h1 : x.id = aid
    · rw [if_neg h2, if_pos h1]
      unfold GclearEdge
      rw [if_pos h1, if_neg h2]
    · rw [if_neg h2, if_neg h1]
      unfold GclearEdge
      rw [if_neg h1, if_neg h2]

theorem bridge_clear2 (r : Registry) (aid bid : String) :
    setSnappedFrom bid none (setSnappedTo aid none r) = r.map (GclearEdge aid bid) := by
  unfold setSnappedTo setSnappedFrom updatePanel
  rw [List.map_map]
  apply List.map_congr_left
  intro x _
  simp only [Function.comp_apply]
  by_cases h1 : x.id = aid
  · by_cases h2 : x.id = bid
    · rw [if_pos h1, if_pos (show ({ x with snappedTo := none } : Panel).id = bid from h2)]
      unfold GclearEdge
      rw [if_pos h1, if_pos h2]
    · rw [if_pos h1, if_neg (show ¬ ({ x with snappedTo := none } : Panel).id = bid from h2)]
      unfold GclearEdge
      rw [if_pos h1, if_neg h2]
  · by_cases h2 : x.id = bid
    · rw [if_neg h1, if_pos h2]
      unfold GclearEdge
      rw [if_neg h1, if_pos h2]
    · rw [if_neg h1, if_neg h2]
      unfold GclearEdge
      rw [if_neg h1, if_neg h2]

theorem bridge_snap1 (r : Registry) (lid rid : String) :
    snapPanels lid rid r = r.map (Gsnap lid rid) := by
  unfold snapPanels setSnappedTo setSnappedFrom updatePanel
  rw [List.map_map]
  apply List.map_congr_left
  intro x _
  simp only [Function.comp_apply]
  by_cases h1 : x.id = lid
  · by_cases h2 : x.id = rid
    · rw [if_pos h1, if_pos (show ({ x with snappedTo := some rid } : Panel).id = rid from h2)]
      unfold Gsnap
      rw [if_pos h1, if_pos h2]
    · rw [if_pos h1, if_neg (show ¬ ({ x with snappedTo := some rid } : Panel).id = rid from h2)]
      unfold Gsnap
      rw [if_pos h1, if_neg h2]
  · by_cases h2 : x.id = rid
    · rw [if_neg h1, if_pos h2]
      unfold Gsnap
      rw [if_neg h1, if_pos h2]
    · rw [if_neg h1, if_neg h2]
      unfold Gsnap
      rw [if_neg h1, if_neg h2]

theorem bridge_snap2 (r : Registry) (lid rid : String) :
    setSnappedTo lid (some rid) (setSnappedFrom rid (some lid) r) = r.map (Gsnap lid rid) := by
  unfold setSnappedTo setSnappedFrom updatePanel
  rw [List.map_map]
  apply List.map_congr_left
  intro x _
  simp only [Function.comp_apply]
  by_cases h2 : x.id = rid
  · by_cases h1 : x.id = lid
    · rw [if_pos h2, if_pos (show ({ x with snappedFrom := some lid } : Panel).id = lid from h1)]
      unfold Gsnap
      rw [if_pos h1, if_pos h2]
    · rw [if_pos h2, if_neg (show ¬ ({ x with snappedFrom := some lid } : Panel).id = lid from h1)]
      unfold Gsnap
      rw [if_neg h1, if_pos h2]
  · by_cases h1 : x.id = lid
    · rw [if_neg h2, if_pos h1]
      unfold Gsnap
      rw [if_pos h1, if_neg h2]
    · rw [if_neg h2, if_neg h1]
      unfold Gsnap
      rw [if_neg h1, if_neg h2]

theorem linkSym_map_intro {r : Registry} {G : Panel → Panel}
    (hid : ∀ x, (G x).id = x.id)
    (h : ∀ a ∈ r, ∀ b ∈ r,
      ((G a).snappedTo = some b.id ↔ (G b).snappedFrom = some a.id)) :
    LinkSym (r.map G) := by
  intro a' ha' b' hb'
  obtain ⟨a, ha, rfl⟩ := List.mem_map.mp ha'
  obtain ⟨b, hb, rfl⟩ := List.mem_map.mp hb'
  rw [hid a, hid b]
  exact h a ha b hb

theorem linkSym_GclearEdge {r : Registry} {aid bid : String} {p : Panel}
    (hN : NodupIds r) (hS : LinkSym r)
    (hp : findPanel r aid = some p) (hto : p.snappedTo = some bid) :
    LinkSym (r.map (GclearEdge aid bid)) := by
  refine linkSym_map_intro ?_ ?_
  · intro x
    rfl
  intro a ha b hb
  unfold GclearEdge
  simp only
  constructor
  · intro hab
    by_cases h1 : a.id = aid
    · rw [if_pos h1] at hab
      exact absurd hab (by simp)
    · rw [if_neg h1] at hab
      have hsym := (hS a ha b hb).mp hab
      by_cases h2 : b.id = bid
      · obtain ⟨hpm, hpid⟩ := findPanel_mem hp
        have h3 : p.snappedTo = some b.id := by rw [hto, h2]
        have h4 := (hS p hpm b hb).mp h3
        rw [hsym] at h4
        have : a.id = p.id := by simpa using h4
        exact absurd (this.trans hpid) h1
      · rw [if_neg h2]
        exact hsym
  · intro hab
    by_cases h2 : b.id = bid
    · rw [if_pos h2] at hab
      exact absurd hab (by simp)
    · rw [if_neg h2] at hab
      have hsym := (hS a ha b hb).mpr hab
      by_cases h1 : a.id = aid
      · have hap : a = p := findPanel_unique hN hp ha h1
        rw [hap, hto] at hsym
        have : b.id = bid := by simpa using hsym.symm
        exact absurd this h2
      · rw [if_neg h1]
        exact hsym

theorem linkSym_GclearEdgeFrom {r : Registry} {aid bid : String} {p : Panel}
    (hN : NodupIds r) (hS : LinkSym r)
    (hp : findPanel r aid = some p) (hfrom : p.snappedFrom = some bid) :
    LinkSym (r.map (GclearEdge bid aid)) := by
  refine linkSym_map_intro ?_ ?_
  · intro x
    rfl
  intro a ha b hb
  unfold GclearEdge
  simp only
  constructor
  · intro hab
    by_cases h1 : a.id = bid
    · rw [if_pos h1] at hab
      exact absurd hab (by simp)
    · rw [if_neg h1] at hab
      have hsym := (hS a ha b hb).mp hab
      by_cases h2 : b.id = aid
      · have hbp : b = p := findPanel_unique hN hp hb h2
        rw [hbp, hfrom] at hsym
        have : a.id = bid := by simpa using hsym.symm
        exact absurd this h1
      · rw [if_neg h2]
        exact hsym
  · intro hab
    by_cases h2 : b.id = aid
    · rw [if_pos h2] at hab
      exact absurd hab (by simp)
    · rw [if_neg h2] at hab
      have hsym := (hS a ha b hb).mpr hab
      by_cases h1 : a.id = bid
      · obtain ⟨hpm, hpid⟩ := findPanel_mem hp
        have h3 : p.snappedFrom = some a.id := by rw [hfrom, h1]
        have h4 := (hS a ha p hpm).mpr h3
        rw [hsym] at h4
        have : b.id = p.id := by simpa using h4
        exact absurd (this.trans hpid) h2
      · rw [if_neg h1]
        exact hsym

theorem linkSym_Gsnap {r : Registry} {lid rid : String}
    (hS : LinkSym r)
    (hl : ∀ q ∈ r, q.id = lid → q.snappedTo = none)
    (hr : ∀ q ∈ r, q.id = rid → q.snappedFrom = none) :
    LinkSym (r.map (Gsnap lid rid)) := by
  refine linkSym_map_intro ?_ ?_
  · intro x
    rfl
  intro a ha b hb
  unfold Gsnap
  simp only
  constructor
  · intro hab
    by_cases h1 : a.id = lid
    · rw [if_pos h1] at hab
      have hb2 : b.id = rid := by simpa using hab.symm
      rw [if_pos hb2, h1]
    · rw [if_neg h1] at hab
      have hsym := (hS a ha b hb).mp hab
      by_cases h2 : b.id = rid
      · rw [hr b hb h2] at hsym
        exact absurd hsym (by simp)
      · rw [if_neg h2]
        exact hsym
  · intro hab
    by_cases h2 : b.id = rid
    · rw [if_pos h2] at hab
      have ha2 : a.id = lid := by simpa using hab.symm
      rw [if_pos ha2, h2]
    · rw [if_neg h2] at hab
      have hsym := (hS a ha b hb).mpr hab
      by_cases h1 : a.id = lid
      · rw [hl a ha h1] at hsym
        exact absurd hsym (by simp)
      · rw [if_neg h1]
        exact hsym

theorem bridge_clearFromOnly (r : Registry) (rid : String) :
    setSnappedFrom rid none r = r.map (GclearFromOnly rid) := by
  unfold setSnappedFrom updatePanel
  apply List.map_congr_left
  intro x _
  by_cases h : x.id = rid
  · rw [if_pos h]
    unfold GclearFromOnly
    rw [if_pos h]
  · rw [if_neg h]
    unfold GclearFromOnly
    rw [if_neg h]

theorem bridge_clearToOnly (r : Registry) (lid : String) :
    setSnappedTo lid none r = r.map (GclearToOnly lid) := by
  unfold setSnappedTo updatePanel
  apply List.map_congr_left
  intro x _
  by_cases h : x.id = lid
  · rw [if_pos h]
    unfold GclearToOnly
    rw [if_pos h]
  · rw [if_neg h]
    unfold GclearToOnly
    rw [if_neg h]

theorem linkSym_clearFromOnly {r : Registry} {lid rid : String} {rt : Panel}
    (hN : NodupIds r) (hS : LinkSym r)
    (hrt : findPanel r rid = some rt) (hfrom : rt.snappedFrom = some lid)
    (hno : ∀ a ∈ r, a.id ≠ lid) :
    LinkSym (r.map (GclearFromOnly rid)) := by
  refine linkSym_map_intro ?_ ?_
  · intro x
    rfl
  intro a ha b hb
  unfold GclearFromOnly
  simp only
  constructor
  · intro hab
    have hsym := (hS a ha b hb).mp hab
    by_cases h2 : b.id = rid
    · have hbr : b = rt := findPanel_unique hN hrt hb h2
      rw [hbr, hfrom] at hsym
      have : a.id = lid := by simpa using hsym.symm
      exact absurd this (hno a ha)
    · rw [if_neg h2]
      exact hsym
  · intro hab
    by_cases h2 : b.id = rid
    · rw [if_pos h2] at hab
      exact absurd hab (by simp)
    · rw [if_neg h2] at hab
      exact (hS a ha b hb).mpr hab

theorem linkSym_clearToOnly {r : Registry} {lid rid : String} {l : Panel}
    (hN : NodupIds r) (hS : LinkSym r)
    (hl : findPanel r lid = some l) (hto : l.snappedTo = some rid)
    (hno : ∀ b ∈ r, b.id ≠ rid) :
    LinkSym (r.map (GclearToOnly lid)) := by
  refine linkSym_map_intro ?_ ?_
  · intro x
    rfl
  intro a ha b hb
  unfold GclearToOnly
  simp only
  constructor
  · intro hab
    by_cases h1 : a.id = lid
    · rw [if_pos h1] at hab
      exact absurd hab (by simp)
    · rw [if_neg h1] at hab
      exact (hS a ha b hb).mp hab
  · intro hab
    have hsym := (hS a ha b hb).mpr hab
    by_cases h1 : a.id = lid
    · have hal : a = l := findPanel_unique hN hl ha h1
      rw [hal, hto] at hsym
      have : b.id = rid := by simpa using hsym.symm
      exact absurd this (hno b hb)
    · rw [if_neg h1]
      exact hsym

theorem nodupIds_map {r : Registry} {G : Panel → Panel}
    (hid : ∀ x, (G x).id = x.id) (hN : NodupIds r) : NodupIds (r.map G) := by
  unfold NodupIds at hN ⊢
  rw [List.map_map]
  have : (Panel.id ∘ G) = Panel.id := by
    funext x
    exact hid x
  rw [this]
  exact hN

theorem nodupIds_updatePanel {r : Registry} {pid : String} {f : Panel → Panel}
    (hid : ∀ x, (f x).id = x.id) (hN : NodupIds r) :
    NodupIds (updatePanel r pid f) := by
  unfold updatePanel
  refine nodupIds_map ?_ hN
  intro x
  by_cases h : x.id = pid
  · rw [if_pos h]
    exact hid x
  · rw [if_neg h]

theorem linkSym_detach {r : Registry} (hN : NodupIds r) (hS : LinkSym r)
    (pid : String) : LinkSym (detachFromGroup pid r) := by
  unfold detachFromGroup
  cases hp : findPanel r pid with
  | none =>
    simp only [hp]
    exact hS
  | some p =>
    cases hpt : p.snappedTo with
    | none =>
      simp only [hp, hpt]
      cases hpf : p.snappedFrom with
      | none =>
        simp only [hpf]
        exact hS
      | some fid =>
        simp only [hpf]
        rw [bridge_clear2]
        exact linkSym_GclearEdgeFrom hN hS hp hpf
    | some tid =>
      have hb1 : setSnappedTo pid none (setSnappedFrom tid none r)
          = r.map (GclearEdge pid tid) := bridge_clear1 r pid tid
      simp only [hp, hpt, hb1]
      have hf1 : findPanel (r.map (GclearEdge pid tid)) pid
          = some (GclearEdge pid tid p) := by
        rw [findPanel_map (GclearEdge pid tid) (fun x => rfl), hp]
        rfl
      simp only [hf1]
      have hS1 : LinkSym (r.map (GclearEdge pid tid)) :=
        linkSym_GclearEdge hN hS hp hpt
      have hN1 : NodupIds (r.map (GclearEdge pid tid)) :=
        nodupIds_map (fun x => rfl) hN
      cases hpf : (GclearEdge pid tid p).snappedFrom with
      | none =>
        simp only [hpf]
        exact hS1
      | some fid =>
        simp only [hpf]
        rw [bridge_clear2]
        exact linkSym_GclearEdgeFrom hN1 hS1 hf1 hpf

theorem linkSym_unsnap {r : Registry} (hN : NodupIds r) (hS : LinkSym r)
    (lid rid : String) : LinkSym (unsnap lid rid r) := by
  unfold unsnap
  cases hl : findPanel r lid with
  | none =>
    simp only [hl]
    cases hrt : findPanel r rid with
    | none =>
      simp only [hrt]
      exact hS
    | some rt =>
      simp only [hrt]
      by_cases hg : rt.snappedFrom = some lid
      · rw [if_pos hg, bridge_clearFromOnly]
        refine linkSym_clearFromOnly hN hS hrt hg ?_
        intro a ha
        exact (findPanel_eq_none.mp hl) a ha
      · rw [if_neg hg]
        exact hS
  | some l =>
    simp only [hl]
    by_cases hg1 : l.snappedTo = some rid
    · rw [if_pos hg1]
      rw [bridge_clearToOnly]
      have hfr : findPanel (r.map (GclearToOnly lid)) rid
          = (findPanel r rid).map (GclearToOnly lid) :=
        findPanel_map (GclearToOnly lid) (fun x => rfl)
      cases hrt : findPanel r rid with
      | none =>
        rw [hrt] at hfr
        simp only [hfr]
        rw [← bridge_clearToOnly]
        rw [bridge_clearToOnly]
        refine linkSym_clearToOnly hN hS hl hg1 ?_
        intro b hb
        exact (findPanel_eq_none.mp hrt) b hb
      | some rt =>
        rw [hrt] at hfr
        simp only [hfr, Option.map_some']
        have hlm := findPanel_mem hl
        have hrm := findPanel_mem hrt
        have hguard : (GclearToOnly lid rt).snappedFrom = some lid := by
          show rt.snappedFrom = some lid
          have h1 : l.snappedTo = some rt.id := by rw [hg1, hrm.2]
          have h2 := (hS l hlm.1 rt hrm.1).mp h1
          rw [h2, hlm.2]
        rw [if_pos hguard]
        rw [← bridge_clearToOnly, bridge_clear2]
        exact linkSym_GclearEdge hN hS hl hg1
    · rw [if_neg hg1]
      cases hrt : findPanel r rid with
      | none =>
        simp only [hrt]
        exact hS
      | some rt =>
        simp only [hrt]
        have hlm := findPanel_mem hl
        have hrm := findPanel_mem hrt
        have hgf : ¬ (rt.snappedFrom = some lid) := by
          intro hcon
          have h1 : rt.snappedFrom = some l.id := by rw [hcon, hlm.2]
          have h2 := (hS l hlm.1 rt hrm.1).mpr h1
          rw [hrm.2] at h2
          exact hg1 h2
        rw [if_neg hgf]
        exact hS

/-- Claim C5: with snapThreshold 50 the horizontal comparison is strict: a
moving group whose x differs from the qualifying hypothetical x by exactly
49 px snaps, by exactly 50 px does not; likewise the vertical tolerance
2 * snapThreshold = 100 admits a 99 px offset and rejects a 100 px offset. -/
theorem snap_threshold_strict :
    (|(249 : Int) - (300 - 100 - 0)| = 49 ∧
      findSnapTarget [movM 249 0] (regC5 249 0) defaultConfig
        = some { targetId := "T", side := Side.left, x := 200, y := 0 }) ∧
    (|(250 : Int) - (300 - 100 - 0)| = 50 ∧
      findSnapTarget [movM 250 0] (regC5 250 0) defaultConfig = none) ∧
    (|(99 : Int) - 0| = 99 ∧
      findSnapTarget [movM 249 99] (regC5 249 99) defaultConfig
        = some { targetId := "T", side := Side.left, x := 200, y := 0 }) ∧
    (|(100 : Int) - 0| = 100 ∧
      findSnapTarget [movM 249 100] (regC5 249 100) defaultConfig = none) := by
  decide

/-- Claim C3: whenever findSnapTarget yields a target at mouse-up, the drag
commits that target through snapPanelsToTarget, and the outcome is
completely independent of the anchor-search callback: no anchor search
result is consulted or committed. -/
theorem drag_commit_panel_snap
    (f g : List Panel → Option AnchorSnapResult)
    (moving : List Panel) (r : Registry) (cfg : Config) (t : SnapTarget)
    (h : findSnapTarget moving r cfg = some t) :
    handleMouseUp f moving r cfg
      = (snapPanelsToTarget moving t.targetId t.side t.x t.y r cfg, some t, none) ∧
    handleMouseUp f moving r cfg = handleMouseUp g moving r cfg := by
  unfold handleMouseUp
  rw [h]
  exact ⟨rfl, rfl⟩

/-- Concrete witness for drag_commit_panel_snap: a real snap scenario where
the two anchor callbacks differ, yet the committed outcome is identical. -/
theorem drag_commit_panel_snap_witness :
    findSnapTarget [movM 249 0] (regC5 249 0) defaultConfig
      = some { targetId := "T", side := Side.left, x := 200, y := 0 } ∧
    handleMouseUp (fun _ => none) [movM 249 0] (regC5 249 0) defaultConfig
      = handleMouseUp (fun _ => some ⟨"a", 0, [⟨0, 0⟩]⟩)
          [movM 249 0] (regC5 249 0) defaultConfig :=
  ⟨by decide,
    (drag_commit_panel_snap (fun _ => none)
      (fun _ => some ⟨"a", 0, [⟨0, 0⟩]⟩)
      [movM 249 0] (regC5 249 0) defaultConfig
      { targetId := "T", side := Side.left, x := 200, y := 0 }
      (by decide)).2⟩

theorem walkLeft_zero (r : Registry) (visited : List String) (cur : Panel)
    (acc : List Panel) : walkLeft r 0 visited cur acc = (acc, visited) := rfl

theorem walkLeft_succ (r : Registry) (fuel : Nat) (visited : List String)
    (cur : Panel) (acc : List Panel) :
    walkLeft r (fuel + 1) visited cur acc =
      if cur.id ∈ visited then (acc, visited)
      else
        match cur.snappedFrom with
        | none => (cur :: acc, cur.id :: visited)
        | some fid =>
          match findPanel r fid with
          | none => (cur :: acc, cur.id :: visited)
          | some nxt => walkLeft r fuel (cur.id :: visited) nxt (cur :: acc) := rfl

theorem walkRight_zero (r : Registry) (visited : List String) (cur : Panel)
    (acc : List Panel) : walkRight r 0 visited cur acc = acc := rfl

theorem walkRight_succ (r : Registry) (fuel : Nat) (visited : List String)
    (cur : Panel) (acc : List Panel) :
    walkRight r (fuel + 1) visited cur acc =
      if cur.id ∈ visited then acc
      else
        match cur.snappedTo with
        | none => acc ++ [cur]
        | some tid =>
          match findPanel r tid with
          | none => acc ++ [cur]
          | some nxt => walkRight r fuel (cur.id :: visited) nxt (acc ++ [cur]) := rfl

theorem walkLeft_visited {r : Registry} {visited : List String} {cur : Panel}
    {acc : List Panel} (h : cur.id ∈ visited) (f : Nat) :
    walkLeft r f visited cur acc = (acc, visited) := by
  cases f with
  | zero => rfl
  | succ f => rw [walkLeft_succ, if_pos h]

theorem walkRight_visited {r : Registry} {visited : List String} {cur : Panel}
    {acc : List Panel} (h : cur.id ∈ visited) (f : Nat) :
    walkRight r f visited cur acc = acc := by
  cases f with
  | zero => rfl
  | succ f => rw [walkRight_succ, if_pos h]

theorem walkBound_le (r : Registry) (cid : String) (visited : List String) :
    walkBound r cid visited ≤ r.length + 1 := by
  unfold walkBound
  calc ((insert cid (r.map Panel.id).toFinset) \ visited.toFinset).card
      ≤ (insert cid (r.map Panel.id).toFinset).card :=
        Finset.card_le_card (Finset.sdiff_subset)
    _ ≤ (r.map Panel.id).toFinset.card + 1 := Finset.card_insert_le _ _
    _ ≤ (r.map Panel.id).length + 1 := by
        have := (r.map Panel.id).toFinset_card_le
        omega
    _ = r.length + 1 := by rw [List.length_map]

theorem walkBound_pos (r : Registry) (cid : String) {visited : List String}
    (h : cid ∉ visited) : 1 ≤ walkBound r cid visited := by
  unfold walkBound
  have : cid ∈ (insert cid (r.map Panel.id).toFinset) \ visited.toFinset := by
    rw [Finset.mem_sdiff]
    refine ⟨Finset.mem_insert_self _ _, ?_⟩
    rw [List.mem_toFinset]
    exact h
  exact Finset.card_pos.mpr ⟨cid, this⟩

theorem walkBound_lt {r : Registry} {cur : Panel} {nxt : Panel}
    {visited : List String} (hmem : nxt ∈ r) (hv : cur.id ∉ visited) :
    walkBound r nxt.id (cur.id :: visited) < walkBound r cur.id visited := by
  unfold walkBound
  have hid : nxt.id ∈ (r.map Panel.id).toFinset := by
    rw [List.mem_toFinset, List.mem_map]
    exact ⟨nxt, hmem, rfl⟩
  have hins : insert nxt.id (r.map Panel.id).toFinset = (r.map Panel.id).toFinset :=
    Finset.insert_eq_self.mpr hid
  rw [hins]
  have hsub : (r.map Panel.id).toFinset \ (cur.id :: visited).toFinset ⊆
      ((insert cur.id (r.map Panel.id).toFinset) \ visited.toFinset).erase cur.id := by
    intro z hz
    rw [Finset.mem_sdiff] at hz
    obtain ⟨hz1, hz2⟩ := hz
    rw [List.toFinset_cons, Finset.mem_insert] at hz2
    push_neg at hz2
    rw [Finset.mem_erase, Finset.mem_sdiff]
    refine ⟨hz2.1, Finset.mem_insert_of_mem hz1, ?_⟩
    rw [List.mem_toFinset]
    intro hcon
    exact hz2.2 (List.mem_toFinset.mpr hcon)
  have hcur : cur.id ∈ (insert cur.id (r.map Panel.id).toFinset) \ visited.toFinset := by
    rw [Finset.mem_sdiff]
    exact ⟨Finset.mem_insert_self _ _, by rw [List.mem_toFinset]; exact hv⟩
  have h1 := Finset.card_le_card hsub
  rw [Finset.card_erase_of_mem hcur] at h1
  have h2 : 1 ≤ ((insert cur.id (r.map Panel.id).toFinset) \ visited.toFinset).card :=
    Finset.card_pos.mpr ⟨cur.id, hcur⟩
  omega

theorem walkLeft_stable (r : Registry) :
    ∀ (n f1 f2 : Nat) (visited : List String) (cur : Panel) (acc : List Panel),
      walkBound r cur.id visited ≤ n →
      walkBound r cur.id visited ≤ f1 → walkBound r cur.id visited ≤ f2 →
      walkLeft r f1 visited cur acc = walkLeft r f2 visited cur acc := by
  intro n
  induction n with
  | zero =>
    intro f1 f2 visited cur acc hn _ _
    by_cases hv : cur.id ∈ visited
    · rw [walkLeft_visited hv, walkLeft_visited hv]
    · exact absurd hn (by have := walkBound_pos r cur.id hv; omega)
  | succ n ih =>
    intro f1 f2 visited cur acc hn h1 h2
    by_cases hv : cur.id ∈ visited
    · rw [walkLeft_visited hv, walkLeft_visited hv]
    · have hpos := walkBound_pos r cur.id hv
      cases f1 with
      | zero => omega
      | succ a =>
        cases f2 with
        | zero => omega
        | succ b =>
          rw [walkLeft_succ, walkLeft_succ, if_neg hv, if_neg hv]
          cases hsf : cur.snappedFrom with
          | none => rfl
          | some fid =>
            cases hfp : findPanel r fid with
            | none => simp only [hfp]
            | some nxt =>
              simp only [hfp]
              have hlt := walkBound_lt (findPanel_mem hfp).1 hv
              exact ih a b (cur.id :: visited) nxt (cur :: acc)
                (by omega) (by omega) (by omega)

theorem walkRight_stable (r : Registry) :
    ∀ (n f1 f2 : Nat) (visited : List String) (cur : Panel) (acc : List Panel),
      walkBound r cur.id visited ≤ n →
      walkBound r cur.id visited ≤ f1 → walkBound r cur.id visited ≤ f2 →
      walkRight r f1 visited cur acc = walkRight r f2 visited cur acc := by
  intro n
  induction n with
  | zero =>
    intro f1 f2 visited cur acc hn _ _
    by_cases hv : cur.id ∈ visited
    · rw [walkRight_visited hv, walkRight_visited hv]
    · exact absurd hn (by have := walkBound_pos r cur.id hv; omega)
  | succ n ih =>
    intro f1 f2 visited cur acc hn h1 h2
    by_cases hv : cur.id ∈ visited
    · rw [walkRight_visited hv, walkRight_visited hv]
    · have hpos := walkBound_pos r cur.id hv
      cases f1 with
      | zero => omega
      | succ a =>
        cases f2 with
        | zero => omega
        | succ b =>
          rw [walkRight_succ, walkRight_succ, if_neg hv, if_neg hv]
          cases hst : cur.snappedTo with
          | none => rfl
          | some tid =>
            cases hfp : findPanel r tid with
            | none => simp only [hfp]
            | some nxt =>
              simp only [hfp]
              have hlt := walkBound_lt (findPanel_mem hfp).1 hv
              exact ih a b (cur.id :: visited) nxt (acc ++ [cur])
                (by omega) (by omega) (by omega)

theorem walkLeft_invariant (r : Registry) :
    ∀ (fuel : Nat) (visited : List String) (cur : Panel) (acc : List Panel),
      ((acc.map Panel.id).Nodup ∧ ∀ a ∈ acc, a.id ∈ visited) →
      (((walkLeft r fuel visited cur acc).1.map Panel.id).Nodup ∧
        ∀ a ∈ (walkLeft r fuel visited cur acc).1,
          a.id ∈ (walkLeft r fuel visited cur acc).2) := by
  intro fuel
  induction fuel with
  | zero =>
    intro visited cur acc h
    exact h
  | succ fuel ih =>
    intro visited cur acc h
    rw [walkLeft_succ]
    by_cases hv : cur.id ∈ visited
    · rw [if_pos hv]
      exact h
    · rw [if_neg hv]
      have hstep : (((cur :: acc).map Panel.id).Nodup ∧
          ∀ a ∈ cur :: acc, a.id ∈ cur.id :: visited) := by
        constructor
        · rw [List.map_cons, List.nodup_cons]
          refine ⟨?_, h.1⟩
          rw [List.mem_map]
          rintro ⟨a, ha, haid⟩
          exact hv (haid ▸ h.2 a ha)
        · intro a ha
          rcases List.mem_cons.mp ha with hc | hc
          · rw [hc]
            exact List.mem_cons_self _ _
          · exact List.mem_cons_of_mem _ (h.2 a hc)
      cases hsf : cur.snappedFrom with
      | none => exact hstep
      | some fid =>
        cases hfp : findPanel r fid with
        | none =>
          simp only [hfp]
          exact hstep
        | some nxt =>
          simp only [hfp]
          exact ih (cur.id :: visited) nxt (cur :: acc) hstep

theorem walkRight_nodup (r : Registry) :
    ∀ (fuel : Nat) (visited : List String) (cur : Panel) (acc : List Panel),
      ((acc.map Panel.id).Nodup ∧ ∀ a ∈ acc, a.id ∈ visited) →
      ((walkRight r fuel visited cur acc).map Panel.id).Nodup := by
  intro fuel
  induction fuel with
  | zero =>
    intro visited cur acc h
    exact h.1
  | succ fuel ih =>
    intro visited cur acc h
    rw [walkRight_succ]
    by_cases hv : cur.id ∈ visited
    · rw [if_pos hv]
      exact h.1
    · rw [if_neg hv]
      have hstep : (((acc ++ [cur]).map Panel.id).Nodup ∧
          ∀ a ∈ acc ++ [cur], a.id ∈ cur.id :: visited) := by
        constructor
        · rw [List.map_append, List.nodup_append]
          refine ⟨h.1, List.nodup_singleton _, ?_⟩
          intro z hz
          rw [List.mem_map] at hz
          obtain ⟨a, ha, haid⟩ := hz
          simp only [List.map_cons, List.map_nil, List.mem_singleton]
          intro hcon
          exact hv (hcon ▸ haid ▸ h.2 a ha)
        · intro a ha
          rcases List.mem_append.mp ha with hc | hc
          · exact List.mem_cons_of_mem _ (h.2 a hc)
          · rw [List.mem_singleton.mp hc]
            exact List.mem_cons_self _ _
      cases hst : cur.snappedTo with
      | none => exact hstep.1
      | some tid =>
        cases hfp : findPanel r tid with
        | none =>
          simp only [hfp]
          exact hstep.1
        | some nxt =>
          simp only [hfp]
          exact ih (cur.id :: visited) nxt (acc ++ [cur]) hstep

/-- Claim C8: getConnectedGroup terminates on every registry, including
malformed cyclic or asymmetric ones: the fueled traversal is stable for any
fuel of at least `r.length + 1` (the JS while-loops can never iterate more
often than that, because the visited set receives a fresh id each
iteration), and the returned finite list visits each panel id at most
once. -/
theorem getConnectedGroup_terminates (r : Registry) (startPanel : Panel)
    (f : Nat) (hf : r.length + 1 ≤ f) :
    getConnectedGroupFuel f startPanel r = getConnectedGroup startPanel r ∧
    ((getConnectedGroup startPanel r).map Panel.id).Nodup := by
  have hwl : walkLeft r f [] startPanel [] = walkLeft r (r.length + 1) [] startPanel [] := by
    have hb := walkBound_le r startPanel.id []
    exact walkLeft_stable r (walkBound r startPanel.id []) f (r.length + 1)
      [] startPanel [] (le_refl _) (by omega) (by omega)
  have hinv := walkLeft_invariant r (r.length + 1) [] startPanel []
    ⟨List.nodup_nil, by intro a ha; exact absurd ha (List.not_mem_nil a)⟩
  constructor
  · unfold getConnectedGroup getConnectedGroupFuel
    rw [hwl]
    cases hst : startPanel.snappedTo with
    | none => rfl
    | some tid =>
      cases hfp : findPanel r tid with
      | none => simp only [hfp]
      | some nxt =>
        simp only [hfp]
        have hb := walkBound_le r nxt.id (walkLeft r (r.length + 1) [] startPanel []).2
        exact walkRight_stable r (walkBound r nxt.id _) f (r.length + 1)
          _ nxt _ (le_refl _) (by omega) (by omega)
  · unfold getConnectedGroup getConnectedGroupFuel
    cases hst : startPanel.snappedTo with
    | none => exact hinv.1
    | some tid =>
      cases hfp : findPanel r tid with
      | none =>
        simp only [hfp]
        exact hinv.1
      | some nxt =>
        simp only [hfp]
        exact walkRight_nodup r (r.length + 1) _ nxt _ ⟨hinv.1, hinv.2⟩

/-- Concrete witness for getConnectedGroup_terminates: a registry whose
snappedFrom links form a 2-cycle (corrupt data) still yields a stable,
duplicate-free traversal. -/
theorem getConnectedGroup_terminates_witness :
    regCyc.length + 1 ≤ 10 ∧
    (getConnectedGroupFuel 10 pCycA regCyc = getConnectedGroup pCycA regCyc ∧
      ((getConnectedGroup pCycA regCyc).map Panel.id).Nodup) :=
  ⟨by decide, getConnectedGroup_terminates regCyc pCycA 10 (by decide)⟩

theorem walkLeft_eval_end {r : Registry} {visited : List String} {cur : Panel}
    {acc : List Panel} {fuel : Nat} (hvis : cur.id ∉ visited)
    (hsf : cur.snappedFrom = none) (hfuel : 1 ≤ fuel) :
    walkLeft r fuel visited cur acc = (cur :: acc, cur.id :: visited) := by
  cases fuel with
  | zero => omega
  | succ f =>
    rw [walkLeft_succ, if_neg hvis]
    simp only [hsf]

theorem walkLeft_eval_step {r : Registry} {visited : List String} {cur : Panel}
    {acc : List Panel} {fuel : Nat} {fid : String} {nxt : Panel}
    (hvis : cur.id ∉ visited) (hsf : cur.snappedFrom = some fid)
    (hfp : findPanel r fid = some nxt) (hfuel : 1 ≤ fuel) :
    walkLeft r fuel visited cur acc
      = walkLeft r (fuel - 1) (cur.id :: visited) nxt (cur :: acc) := by
  cases fuel with
  | zero => omega
  | succ f =>
    rw [walkLeft_succ, if_neg hvis]
    simp only [hsf, hfp, Nat.succ_sub_one]

theorem walkRight_eval_end {r : Registry} {visited : List String} {cur : Panel}
    {acc : List Panel} {fuel : Nat} (hvis : cur.id ∉ visited)
    (hst : cur.snappedTo = none) (hfuel : 1 ≤ fuel) :
    walkRight r fuel visited cur acc = acc ++ [cur] := by
  cases fuel with
  | zero => omega
  | succ f =>
    rw [walkRight_succ, if_neg hvis]
    simp only [hst]

theorem walkRight_eval_step {r : Registry} {visited : List String} {cur : Panel}
    {acc : List Panel} {fuel : Nat} {tid : String} {nxt : Panel}
    (hvis : cur.id ∉ visited) (hst : cur.snappedTo = some tid)
    (hfp : findPanel r tid = some nxt) (hfuel : 1 ≤ fuel) :
    walkRight r fuel visited cur acc
      = walkRight r (fuel - 1) (cur.id :: visited) nxt (acc ++ [cur]) := by
  cases fuel with
  | zero => omega
  | succ f =>
    rw [walkRight_succ, if_neg hvis]
    simp only [hst, hfp, Nat.succ_sub_one]

/-- Claim C6: for any registry in which three panels are snapped
left-to-right with symmetric links and closed ends, getConnectedGroup
returns the ordered chain [P1, P2, P3] whichever of the three members it is
queried on. -/
theorem chain_round_trip (r : Registry) (p1 p2 p3 : Panel)
    (h1 : findPanel r p1.id = some p1) (h2 : findPanel r p2.id = some p2)
    (h3 : findPanel r p3.id = some p3)
    (hne12 : p1.id ≠ p2.id) (hne13 : p1.id ≠ p3.id) (hne23 : p2.id ≠ p3.id)
    (h1f : p1.snappedFrom = none) (h1t : p1.snappedTo = some p2.id)
    (h2f : p2.snappedFrom = some p1.id) (h2t : p2.snappedTo = some p3.id)
    (h3f : p3.snappedFrom = some p2.id) (h3t : p3.snappedTo = none) :
    getConnectedGroup p1 r = [p1, p2, p3] ∧
    getConnectedGroup p2 r = [p1, p2, p3] ∧
    getConnectedGroup p3 r = [p1, p2, p3] := by
  have hm1 := (findPanel_mem h1).1
  have hm2 := (findPanel_mem h2).1
  have hm3 := (findPanel_mem h3).1
  have hnd : List.Nodup [p1, p2, p3] := by
    have e12 : p1 ≠ p2 := fun h => hne12 (by rw [h])
    have e13 : p1 ≠ p3 := fun h => hne13 (by rw [h])
    have e23 : p2 ≠ p3 := fun h => hne23 (by rw [h])
    simp [List.nodup_cons, e12, e13, e23]
  have hsub : [p1, p2, p3] ⊆ r := by
    intro z hz
    rcases List.mem_cons.mp hz with hc | hz2
    · rw [hc]; exact hm1
    rcases List.mem_cons.mp hz2 with hc | hz3
    · rw [hc]; exact hm2
    rcases List.mem_cons.mp hz3 with hc | hz4
    · rw [hc]; exact hm3
    · exact absurd hz4 (List.not_mem_nil z)
  have hlen : 3 ≤ r.length := by
    have := (List.subperm_of_subset hnd hsub).length_le
    simpa using this
  refine ⟨?_, ?_, ?_⟩
  · -- query p1
    have e1 : walkLeft r (r.length + 1) [] p1 [] = ([p1], [p1.id]) :=
      walkLeft_eval_end (by simp) h1f (by omega)
    unfold getConnectedGroup getConnectedGroupFuel
    simp only [e1, h1t, h2]
    rw [walkRight_eval_step (by simp [Ne.symm hne12]) h2t h3 (by omega)]
    rw [walkRight_eval_end (by simp [Ne.symm hne13, Ne.symm hne23]) h3t (by omega)]
    rfl
  · -- query p2
    have e1 : walkLeft r (r.length + 1) [] p2 [] = ([p1, p2], [p1.id, p2.id]) := by
      rw [walkLeft_eval_step (by simp) h2f h1 (by omega)]
      exact walkLeft_eval_end (by simp [hne12]) h1f (by omega)
    unfold getConnectedGroup getConnectedGroupFuel
    simp only [e1, h2t, h3]
    rw [walkRight_eval_end (by simp [Ne.symm hne13, Ne.symm hne23]) h3t (by omega)]
    rfl
  · -- query p3
    have e1 : walkLeft r (r.length + 1) [] p3 []
        = ([p1, p2, p3], [p1.id, p2.id, p3.id]) := by
      rw [walkLeft_eval_step (by simp) h3f h2 (by omega)]
      rw [walkLeft_eval_step (by simp [hne23]) h2f h1 (by omega)]
      exact walkLeft_eval_end (by simp [hne12, hne13]) h1f (by omega)
    unfold getConnectedGroup getConnectedGroupFuel
    simp only [e1, h3t]

/-- Concrete witness for chain_round_trip on a 3-chain registry. -/
theorem chain_round_trip_witness :
    (findPanel regRT pRT1.id = some pRT1 ∧ pRT1.snappedTo = some pRT2.id) ∧
    getConnectedGroup pRT2 regRT = [pRT1, pRT2, pRT3] :=
  ⟨⟨by decide, by decide⟩,
    (chain_round_trip regRT pRT1 pRT2 pRT3 (by decide) (by decide) (by decide)
      (by decide) (by decide) (by decide) (by decide) (by decide) (by decide)
      (by decide) (by decide) (by decide)).2.1⟩

theorem detach_noop {r : Registry} {pid : String} {p : Panel}
    (hp : findPanel r pid = some p) (ht : p.snappedTo = none)
    (hf : p.snappedFrom = none) : detachFromGroup pid r = r := by
  unfold detachFromGroup
  simp only [hp, ht, hf]

theorem detach_noop_missing {r : Registry} {pid : String}
    (hp : findPanel r pid = none) : detachFromGroup pid r = r := by
  unfold detachFromGroup
  simp only [hp]

theorem detach_clears (r : Registry) (pid : String) (p : Panel)
    (hp : findPanel r pid = some p) :
    ∃ p', findPanel (detachFromGroup pid r) pid = some p' ∧
      p'.snappedTo = none ∧ p'.snappedFrom = none := by
  have hpid := (findPanel_mem hp).2
  unfold detachFromGroup
  cases hpt : p.snappedTo with
  | none =>
    simp only [hp, hpt]
    cases hpf : p.snappedFrom with
    | none =>
      simp only [hpf]
      exact ⟨p, hp, hpt, hpf⟩
    | some fid =>
      simp only [hpf]
      rw [bridge_clear2]
      refine ⟨GclearEdge fid pid p, ?_, ?_, ?_⟩
      · rw [findPanel_map (GclearEdge fid pid) (fun x => rfl), hp]
        rfl
      · show (if p.id = fid then none else p.snappedTo) = none
        by_cases h : p.id = fid
        · rw [if_pos h]
        · rw [if_neg h]
          exact hpt
      · show (if p.id = pid then none else p.snappedFrom) = none
        rw [if_pos hpid]
  | some tid =>
    have hb1 := bridge_clear1 r pid tid
    simp only [hp, hpt, hb1]
    have hf1 : findPanel (r.map (GclearEdge pid tid)) pid
        = some (GclearEdge pid tid p) := by
      rw [findPanel_map (GclearEdge pid tid) (fun x => rfl), hp]
      rfl
    simp only [hf1]
    have hp1t : (GclearEdge pid tid p).snappedTo = none := by
      show (if p.id = pid then none else p.snappedTo) = none
      rw [if_pos hpid]
    cases hpf : (GclearEdge pid tid p).snappedFrom with
    | none =>
      simp only [hpf]
      exact ⟨GclearEdge pid tid p, hf1, hp1t, hpf⟩
    | some fid =>
      simp only [hpf]
      rw [bridge_clear2]
      refine ⟨GclearEdge fid pid (GclearEdge pid tid p), ?_, ?_, ?_⟩
      · rw [findPanel_map (GclearEdge fid pid) (fun x => rfl), hf1]
        rfl
      · show (if (GclearEdge pid tid p).id = fid then none
            else (GclearEdge pid tid p).snappedTo) = none
        by_cases h : (GclearEdge pid tid p).id = fid
        · rw [if_pos h]
        · rw [if_neg h]
          exact hp1t
      · show (if (GclearEdge pid tid p).id = pid then none
            else (GclearEdge pid tid p).snappedFrom) = none
        rw [if_pos (show (GclearEdge pid tid p).id = pid from hpid)]

/-- Claim C7: detachFromGroup is idempotent: running it twice on the same
panel id equals running it once, and running it on a panel whose links are
both already cleared changes nothing. -/
theorem detach_idempotent (pid : String) (r : Registry) :
    detachFromGroup pid (detachFromGroup pid r) = detachFromGroup pid r ∧
    (∀ p, findPanel r pid = some p → p.snappedTo = none →
      p.snappedFrom = none → detachFromGroup pid r = r) := by
  constructor
  · cases hp : findPanel r pid with
    | none =>
      have h0 := detach_noop_missing hp
      rw [h0]
      exact h0
    | some p =>
      obtain ⟨p', hp', ht', hf'⟩ := detach_clears r pid p hp
      exact detach_noop hp' ht' hf'
  · intro p hp ht hf
    exact detach_noop hp ht hf

/-- Concrete witness for detach_idempotent: detaching the already-detached
panel C is a no-op. -/
theorem detach_idempotent_witness :
    (findPanel regC7 "C" = some pFree ∧ pFree.snappedTo = none ∧
      pFree.snappedFrom = none) ∧ detachFromGroup "C" regC7 = regC7 :=
  ⟨⟨by decide, by decide, by decide⟩,
    (detach_idempotent "C" regC7).2 pFree (by decide) (by decide) (by decide)⟩

/-- Claim C9: operations given an id absent from their collection return a
neutral negative result and leave all state unchanged: removeAnchor returns
false, TabManager.removePanel returns false, and snapPanelsToTarget with an
unknown target id mutates no panel. -/
theorem notfound_neutral (anchors : List Anchor) (aid : String) (r : Registry)
    (pid tid : String) (moving : List Panel) (side : Side) (x y : Int)
    (cfg : Config) :
    ((∀ a ∈ anchors, a.id ≠ aid) → removeAnchor anchors aid = (false, anchors)) ∧
    ((∀ p ∈ r, p.id ≠ pid) → removePanel r pid = (false, r)) ∧
    ((∀ p ∈ r, p.id ≠ tid) → snapPanelsToTarget moving tid side x y r cfg = r) := by
  refine ⟨?_, ?_, ?_⟩
  · intro h
    have hidx : anchors.findIdx? (fun a => a.id == aid) = none := by
      rw [List.findIdx?_eq_none_iff]
      intro a ha
      simp [h a ha]
    unfold removeAnchor
    simp only [hidx]
  · intro h
    have hfp : findPanel r pid = none := findPanel_eq_none.mpr h
    unfold removePanel
    simp only [hfp]
  · intro h
    have hfp : findPanel r tid = none := findPanel_eq_none.mpr h
    unfold snapPanelsToTarget
    simp only [hfp]

/-- Concrete witness for notfound_neutral: the ids are absent, the
operations answer false / no-op. -/
theorem notfound_neutral_witness :
    ((∀ a ∈ [Anchor.mk "top-left" 16 16], a.id ≠ "nope") ∧
      (∀ p ∈ regRT, p.id ≠ "nope")) ∧
    removeAnchor [Anchor.mk "top-left" 16 16] "nope"
      = (false, [Anchor.mk "top-left" 16 16]) ∧
    removePanel regRT "nope" = (false, regRT) ∧
    snapPanelsToTarget [pRT1] "nope" Side.left 0 0 regRT defaultConfig = regRT := by
  refine ⟨⟨by decide, by decide⟩, ?_, ?_, ?_⟩
  · exact (notfound_neutral [Anchor.mk "top-left" 16 16] "nope" regRT "nope" "nope"
      [pRT1] Side.left 0 0 defaultConfig).1 (by decide)
  · exact (notfound_neutral [Anchor.mk "top-left" 16 16] "nope" regRT "nope" "nope"
      [pRT1] Side.left 0 0 defaultConfig).2.1 (by decide)
  · exact (notfound_neutral [Anchor.mk "top-left" 16 16] "nope" regRT "nope" "nope"
      [pRT1] Side.left 0 0 defaultConfig).2.2 (by decide)

theorem reflowLoop_succ (cfg : Config) (fuel : Nat) (r : Registry)
    (curId : String) :
    reflowLoop cfg (fuel + 1) r curId =
      match findPanel r curId with
      | none => r
      | some cur =>
        match cur.snappedFrom with
        | none => r
        | some fid =>
          match findPanel r fid with
          | none => r
          | some _ =>
            reflowLoop cfg fuel
              (updatePanel r fid
                (fun q => { q with x := cur.x - q.width - cfg.panelGap, y := cur.y }))
              fid := rfl

theorem findPanel_updatePanel_ne {r : Registry} {pid qid : String}
    {g : Panel → Panel} (hid : ∀ x, (g x).id = x.id) (hne : qid ≠ pid) :
    findPanel (updatePanel r pid g) qid = findPanel r qid := by
  unfold updatePanel
  rw [findPanel_map (fun p => if p.id = pid then g p else p) ?hid]
  case hid =>
    intro x
    show (if x.id = pid then g x else x).id = x.id
    by_cases h : x.id = pid
    · rw [if_pos h]
      exact hid x
    · rw [if_neg h]
  cases hq : findPanel r qid with
  | none => rfl
  | some w =>
    have hw := (findPanel_mem hq).2
    simp only [Option.map_some']
    rw [if_neg (by rw [hw]; exact hne)]

theorem findPanel_updatePanel_self {r : Registry} {pid : String}
    {g : Panel → Panel} {q : Panel} (hid : ∀ x, (g x).id = x.id)
    (hq : findPanel r pid = some q) :
    findPanel (updatePanel r pid g) pid = some (g q) := by
  unfold updatePanel
  rw [findPanel_map (fun p => if p.id = pid then g p else p) ?hid2, hq]
  case hid2 =>
    intro x
    show (if x.id = pid then g x else x).id = x.id
    by_cases h : x.id = pid
    · rw [if_pos h]
      exact hid x
    · rw [if_neg h]
  simp only [Option.map_some']
  rw [if_pos (findPanel_mem hq).2]

theorem findPanel_updatePanel (r : Registry) (pid : String) {g : Panel → Panel}
    (hid : ∀ x, (g x).id = x.id) (c : String) :
    findPanel (updatePanel r pid g) c
      = (findPanel r c).map (fun p => if p.id = pid then g p else p) := by
  unfold updatePanel
  apply findPanel_map
  intro x
  show (if x.id = pid then g x else x).id = x.id
  by_cases h : x.id = pid
  · rw [if_pos h]
    exact hid x
  · rw [if_neg h]

theorem leftWalkOk_updatePanel {r : Registry} {pid : String} {g : Panel → Panel}
    (hid : ∀ x, (g x).id = x.id)
    (hsf : ∀ x, (g x).snappedFrom = x.snappedFrom) :
    ∀ (D : List String) (c : String),
      leftWalkOk (updatePanel r pid g) c D = leftWalkOk r c D := by
  intro D
  induction D with
  | nil =>
    intro c
    unfold leftWalkOk
    rw [findPanel_updatePanel r pid hid c]
    cases hfc : findPanel r c with
    | none => rfl
    | some p =>
      show (if p.id = pid then g p else p).snappedFrom.isNone = p.snappedFrom.isNone
      by_cases h : p.id = pid
      · rw [if_pos h, hsf p]
      · rw [if_neg h]
  | cons f rest ih =>
    intro c
    unfold leftWalkOk
    rw [findPanel_updatePanel r pid hid c]
    cases hfc : findPanel r c with
    | none => rfl
    | some p =>
      show ((if p.id = pid then g p else p).snappedFrom == some f
            && leftWalkOk (updatePanel r pid g) f rest)
          = (p.snappedFrom == some f && leftWalkOk r f rest)
      rw [ih f]
      by_cases h : p.id = pid
      · rw [if_pos h, hsf p]
      · rw [if_neg h]

theorem leftWalkOk_nil {r : Registry} {c : String}
    (h : leftWalkOk r c [] = true) :
    ∃ p, findPanel r c = some p ∧ p.snappedFrom = none := by
  unfold leftWalkOk at h
  cases hfc : findPanel r c with
  | none =>
    simp only [hfc] at h
    exact absurd h (by simp)
  | some p =>
    simp only [hfc, Option.isNone_iff_eq_none] at h
    exact ⟨p, rfl, h⟩

theorem leftWalkOk_cons {r : Registry} {c f : String} {rest : List String}
    (h : leftWalkOk r c (f :: rest) = true) :
    ∃ p, findPanel r c = some p ∧ p.snappedFrom = some f ∧
      leftWalkOk r f rest = true := by
  unfold leftWalkOk at h
  cases hfc : findPanel r c with
  | none =>
    simp only [hfc] at h
    exact absurd h (by simp)
  | some p =>
    simp only [hfc, Bool.and_eq_true, beq_iff_eq] at h
    exact ⟨p, rfl, h.1, h.2⟩

theorem leftWalkOk_found {r : Registry} {c : String} {D : List String}
    (h : leftWalkOk r c D = true) : ∃ p, findPanel r c = some p := by
  cases D with
  | nil =>
    obtain ⟨p, hp, _⟩ := leftWalkOk_nil h
    exact ⟨p, hp⟩
  | cons f rest =>
    obtain ⟨p, hp, _, _⟩ := leftWalkOk_cons h
    exact ⟨p, hp⟩

theorem leftWalkOk_subset {r : Registry} :
    ∀ {D : List String} {c : String}, leftWalkOk r c D = true →
      ∀ d ∈ D, d ∈ r.map Panel.id := by
  intro D
  induction D with
  | nil =>
    intro c _ d hd
    exact absurd hd (List.not_mem_nil d)
  | cons f rest ih =>
    intro c h d hd
    obtain ⟨p, hp, hpf, hrest⟩ := leftWalkOk_cons h
    rcases List.mem_cons.mp hd with hdf | hdr
    · obtain ⟨q, hq⟩ := leftWalkOk_found hrest
      have hqm := findPanel_mem hq
      rw [hdf, List.mem_map]
      exact ⟨q, hqm.1, hqm.2⟩
    · exact ih hrest d hdr

theorem reflowLoop_spec (cfg : Config) :
    ∀ (D : List String) (fuel : Nat) (r : Registry) (c : String),
      leftWalkOk r c D = true → (c :: D).Nodup → D.length ≤ fuel →
      ((∀ pid, pid ∉ D →
          findPanel (reflowLoop cfg fuel r c) pid = findPanel r pid) ∧
        List.Chain'
          (fun a b => adjacentPosB (reflowLoop cfg fuel r c) cfg a b = true)
          (c :: D)) := by
  intro D
  induction D with
  | nil =>
    intro fuel r c hw _ _
    obtain ⟨p, hp, hpf⟩ := leftWalkOk_nil hw
    have hstop : reflowLoop cfg fuel r c = r := by
      cases fuel with
      | zero => rfl
      | succ fl =>
        rw [reflowLoop_succ]
        simp only [hp, hpf]
    rw [hstop]
    exact ⟨fun pid _ => rfl, List.chain'_singleton c⟩
  | cons f rest ih =>
    intro fuel r c hw hnd hlen
    obtain ⟨p, hp, hpf, hrest⟩ := leftWalkOk_cons hw
    obtain ⟨q, hq⟩ := leftWalkOk_found hrest
    cases fuel with
    | zero =>
      simp only [List.length_cons] at hlen
      omega
    | succ fl =>
      have hstep : reflowLoop cfg (fl + 1) r c
          = reflowLoop cfg fl
              (updatePanel r f
                (fun z => { z with x := p.x - z.width - cfg.panelGap, y := p.y })) f := by
        rw [reflowLoop_succ]
        simp only [hp, hpf, hq]
      set r1 := updatePanel r f
        (fun z => { z with x := p.x - z.width - cfg.panelGap, y := p.y }) with hr1
      have hid : ∀ z : Panel,
          ((fun z => ({ z with x := p.x - z.width - cfg.panelGap, y := p.y } : Panel)) z).id
            = z.id := fun z => rfl
      have hsf : ∀ z : Panel,
          ((fun z => ({ z with x := p.x - z.width - cfg.panelGap, y := p.y } : Panel)) z).snappedFrom
            = z.snappedFrom := fun z => rfl
      have hw1 : leftWalkOk r1 f rest = true := by
        rw [hr1, leftWalkOk_updatePanel hid hsf]
        exact hrest
      have hnd1 : (f :: rest).Nodup := hnd.of_cons
      have hlen1 : rest.length ≤ fl := by
        simp only [List.length_cons] at hlen
        omega
      obtain ⟨A1, A2⟩ := ih fl r1 f hw1 hnd1 hlen1
      have hcne : c ∉ f :: rest := (List.nodup_cons.mp hnd).1
      have hcnf : c ≠ f := fun h => hcne (h ▸ List.mem_cons_self f rest)
      have hcnr : c ∉ rest := fun h => hcne (List.mem_cons_of_mem f h)
      have hfnr : f ∉ rest := (List.nodup_cons.mp hnd1).1
      rw [hstep]
      constructor
      · intro pid hpid
        have hpidf : pid ≠ f := fun h => hpid (h ▸ List.mem_cons_self f rest)
        have hpidr : pid ∉ rest := fun h => hpid (List.mem_cons_of_mem f h)
        rw [A1 pid hpidr, hr1, findPanel_updatePanel_ne hid hpidf]
      · rw [List.chain'_cons]
        refine ⟨?_, A2⟩
        have hfc2 : findPanel (reflowLoop cfg fl r1 f) c = some p := by
          rw [A1 c hcnr, hr1, findPanel_updatePanel_ne hid hcnf]
          exact hp
        have hff2 : findPanel (reflowLoop cfg fl r1 f) f
            = some { q with x := p.x - q.width - cfg.panelGap, y := p.y } := by
          rw [A1 f hfnr, hr1, findPanel_updatePanel_self hid hq]
        unfold adjacentPosB
        rw [hfc2, hff2]
        simp

/-- Claim C2 (amended): updateSnappedPositions re-flows exactly one chain:
it walks left from the first panel found with no right link and a left link
(the rightmost of the first chain in map order), repositioning each left
neighbour so its right edge touches its right neighbour plus the gap with
matching y; every panel outside that walk keeps its state unchanged. -/
theorem reflow_single_chain (cfg : Config) (r : Registry) (rm : Panel)
    (D : List String) (hrm : findRightmost r = some rm)
    (hwalk : leftWalkOk r rm.id D = true) (hnd : (rm.id :: D).Nodup) :
    (∀ pid, pid ∉ D →
      findPanel (updateSnappedPositions cfg r) pid = findPanel r pid) ∧
    List.Chain'
      (fun a b => adjacentPosB (updateSnappedPositions cfg r) cfg a b = true)
      (rm.id :: D) := by
  have hlen : D.length ≤ r.length := by
    have hsp := List.subperm_of_subset hnd.of_cons
      (fun d hd => leftWalkOk_subset hwalk d hd)
    have := hsp.length_le
    simpa using this
  unfold updateSnappedPositions
  simp only [hrm]
  exact reflowLoop_spec cfg D r.length r rm.id hwalk hnd hlen

/-- Counterexample for claim C2 as stated: the registry holds two chains
A—B and C—D; updateSnappedPositions walks only the first chain (rightmost
B), so D's left neighbour C is left untouched at x = 500 instead of being
repositioned to D.x - C.width - gap = 700; the claimed adjacency fails for
the second chain. -/
theorem reflow_not_all_chains :
    (findPanel regTwoChains "D" = some cxD ∧ cxD.snappedFrom = some "C" ∧
      cxD.snappedTo = none) ∧
    (findPanel (updateSnappedPositions defaultConfig regTwoChains) "C").map Panel.x
      = some 500 ∧
    (findPanel (updateSnappedPositions defaultConfig regTwoChains) "D").map Panel.x
      = some 800 ∧
    adjacentPosB (updateSnappedPositions defaultConfig regTwoChains)
      defaultConfig "D" "C" = false := by
  decide

/-- Concrete witness for reflow_single_chain: a misplaced 3-chain is walked
from its rightmost member P3, and both left neighbours end adjacent. -/
theorem reflow_single_chain_witness :
    (findRightmost regOneChain = some wfP3 ∧
      leftWalkOk regOneChain wfP3.id ["P2", "P1"] = true ∧
      (wfP3.id :: ["P2", "P1"]).Nodup) ∧
    List.Chain'
      (fun a b => adjacentPosB (updateSnappedPositions defaultConfig regOneChain)
        defaultConfig a b = true)
      (wfP3.id :: ["P2", "P1"]) :=
  ⟨⟨by decide, by decide, by decide⟩,
    (reflow_single_chain defaultConfig regOneChain wfP3 ["P2", "P1"]
      (by decide) (by decide) (by decide)).2⟩

theorem linkSym_updatePanel_pos {r : Registry} {pid : String} {g : Panel → Panel}
    (hid : ∀ x, (g x).id = x.id)
    (hto : ∀ x, (g x).snappedTo = x.snappedTo)
    (hfrom : ∀ x, (g x).snappedFrom = x.snappedFrom)
    (hS : LinkSym r) : LinkSym (updatePanel r pid g) := by
  unfold updatePanel
  refine linkSym_map_intro ?_ ?_
  · intro x
    show (if x.id = pid then g x else x).id = x.id
    by_cases h : x.id = pid
    · rw [if_pos h]
      exact hid x
    · rw [if_neg h]
  intro a ha b hb
  have ea : ((if a.id = pid then g a else a) : Panel).snappedTo = a.snappedTo := by
    by_cases h : a.id = pid
    · rw [if_pos h]
      exact hto a
    · rw [if_neg h]
  have eb : ((if b.id = pid then g b else b) : Panel).snappedFrom = b.snappedFrom := by
    by_cases h : b.id = pid
    · rw [if_pos h]
      exact hfrom b
    · rw [if_neg h]
  show ((if a.id = pid then g a else a) : Panel).snappedTo = some b.id ↔
    ((if b.id = pid then g b else b) : Panel).snappedFrom = some a.id
  rw [ea, eb]
  exact hS a ha b hb

theorem fieldNone_updatePanel_pos {r : Registry} {pid z : String}
    {g : Panel → Panel} {F : Panel → Option String}
    (hid : ∀ x, (g x).id = x.id) (hF : ∀ x, F (g x) = F x)
    (h : ∀ p ∈ r, p.id = z → F p = none) :
    ∀ p ∈ updatePanel r pid g, p.id = z → F p = none := by
  intro p' hp' hz
  unfold updatePanel at hp'
  obtain ⟨p, hp, rfl⟩ := List.mem_map.mp hp'
  have hpe : F ((if p.id = pid then g p else p) : Panel) = F p := by
    by_cases hc : p.id = pid
    · rw [if_pos hc]
      exact hF p
    · rw [if_neg hc]
  have hide : ((if p.id = pid then g p else p) : Panel).id = p.id := by
    by_cases hc : p.id = pid
    · rw [if_pos hc]
      exact hid p
    · rw [if_neg hc]
  rw [hpe]
  exact h p hp (hide ▸ hz)

theorem positionRow_pres (cfg : Config) (P : Registry → Prop)
    (hstep : ∀ pid nx ny s, P s → P (setPos pid nx ny s)) :
    ∀ (moving : List Panel) (x y : Int) (r : Registry),
      P r → P (positionRow cfg moving x y r) := by
  intro moving
  induction moving with
  | nil =>
    intro x y r h
    exact h
  | cons p rest ih =>
    intro x y r h
    exact ih _ _ _ (hstep p.id x y r h)

theorem linkSym_positionRow (cfg : Config) (moving : List Panel) (x y : Int)
    {r : Registry} (hS : LinkSym r) : LinkSym (positionRow cfg moving x y r) := by
  refine positionRow_pres cfg LinkSym ?_ moving x y r hS
  intro pid nx ny s h
  exact linkSym_updatePanel_pos (fun z => rfl) (fun z => rfl) (fun z => rfl) h

theorem noTo_positionRow (cfg : Config) (moving : List Panel) (x y : Int)
    {r : Registry} {z : String} (h : ∀ p ∈ r, p.id = z → p.snappedTo = none) :
    ∀ p ∈ positionRow cfg moving x y r, p.id = z → p.snappedTo = none := by
  refine positionRow_pres cfg
    (fun s => ∀ p ∈ s, p.id = z → p.snappedTo = none) ?_ moving x y r h
  intro pid nx ny s hs
  exact fieldNone_updatePanel_pos (fun q => rfl) (fun q => rfl) hs

theorem noFrom_positionRow (cfg : Config) (moving : List Panel) (x y : Int)
    {r : Registry} {z : String} (h : ∀ p ∈ r, p.id = z → p.snappedFrom = none) :
    ∀ p ∈ positionRow cfg moving x y r, p.id = z → p.snappedFrom = none := by
  refine positionRow_pres cfg
    (fun s => ∀ p ∈ s, p.id = z → p.snappedFrom = none) ?_ moving x y r h
  intro pid nx ny s hs
  exact fieldNone_updatePanel_pos (fun q => rfl) (fun q => rfl) hs

/-- Claim C1 (amended): starting from a registry with unique ids that
satisfies link symmetry, detachFromGroup and unsnap preserve link symmetry
unconditionally; snapPanels preserves it provided the left panel has no
existing right link and the right panel no existing left link; and
snapPanelsToTarget preserves it provided the boundary panel of the moving
group and the target have no existing link on the sides being joined. -/
theorem snap_link_symmetry (r : Registry) (hN : NodupIds r) (hS : LinkSym r) :
    (∀ pid, LinkSym (detachFromGroup pid r)) ∧
    (∀ lid rid, LinkSym (unsnap lid rid r)) ∧
    (∀ lid rid,
      (∀ p ∈ r, p.id = lid → p.snappedTo = none) →
      (∀ p ∈ r, p.id = rid → p.snappedFrom = none) →
      LinkSym (snapPanels lid rid r)) ∧
    (∀ (moving : List Panel) (tid : String) (x y : Int) (cfg : Config)
        (rm : Panel),
      moving.getLast? = some rm →
      (∀ p ∈ r, p.id = rm.id → p.snappedTo = none) →
      (∀ p ∈ r, p.id = tid → p.snappedFrom = none) →
      LinkSym (snapPanelsToTarget moving tid Side.left x y r cfg)) ∧
    (∀ (moving : List Panel) (tid : String) (x y : Int) (cfg : Config)
        (lm : Panel),
      moving.head? = some lm →
      (∀ p ∈ r, p.id = lm.id → p.snappedFrom = none) →
      (∀ p ∈ r, p.id = tid → p.snappedTo = none) →
      LinkSym (snapPanelsToTarget moving tid Side.right x y r cfg)) := by
  refine ⟨fun pid => linkSym_detach hN hS pid,
    fun lid rid => linkSym_unsnap hN hS lid rid, ?_, ?_, ?_⟩
  · intro lid rid hl hr
    rw [bridge_snap1]
    exact linkSym_Gsnap hS hl hr
  · intro moving tid x y cfg rm hlast hrm htid
    unfold snapPanelsToTarget
    cases hft : findPanel r tid with
    | none =>
      simp only [hft]
      exact hS
    | some t0 =>
      simp only [hft]
      cases moving with
      | nil => exact absurd hlast (by simp)
      | cons lm rest =>
        simp only
        have hrm2 : (lm :: rest).getLast (List.cons_ne_nil lm rest) = rm := by
          have hgl := List.getLast?_eq_getLast (lm :: rest) (List.cons_ne_nil lm rest)
          rw [hgl] at hlast
          exact Option.some.inj hlast
        rw [hrm2]
        rw [bridge_snap1]
        refine linkSym_Gsnap (linkSym_positionRow cfg (lm :: rest) x y hS) ?_ ?_
        · exact noTo_positionRow cfg (lm :: rest) x y hrm
        · exact noFrom_positionRow cfg (lm :: rest) x y htid
  · intro moving tid x y cfg lm0 hhead hlm htid
    unfold snapPanelsToTarget
    cases hft : findPanel r tid with
    | none =>
      simp only [hft]
      exact hS
    | some t0 =>
      simp only [hft]
      cases moving with
      | nil => exact absurd hhead (by simp)
      | cons lm rest =>
        simp only
        have hlm2 : lm = lm0 := by
          simpa using hhead
        rw [bridge_snap2]
        subst hlm2
        refine linkSym_Gsnap (linkSym_positionRow cfg (lm :: rest) x y hS) ?_ ?_
        · exact noTo_positionRow cfg (lm :: rest) x y htid
        · exact noFrom_positionRow cfg (lm :: rest) x y hlm

/-- Counterexample for claim C1 as stated: regSym satisfies link symmetry
(A—B linked, C free, unique ids), yet the public operation
snapPanels "A" "C" leaves B.snappedFrom = "A" while A.snappedTo = "C",
breaking the invariant. -/
theorem snap_link_symmetry_cx :
    (NodupIds regSym ∧ LinkSym regSym) ∧
    ¬ LinkSym (snapPanels "A" "C" regSym) := by
  decide

/-- Concrete witness for snap_link_symmetry: applying the detach conjunct
on the linked registry keeps link symmetry. -/
theorem snap_link_symmetry_witness :
    (NodupIds regSym ∧ LinkSym regSym) ∧
    LinkSym (detachFromGroup "A" regSym) :=
  ⟨⟨by decide, by decide⟩,
    (snap_link_symmetry regSym (by decide) (by decide)).1 "A"⟩

theorem layoutFrom_length (gap ay : Int) :
    ∀ (m : List Panel) (sx : Int), (layoutFrom gap ay m sx).length = m.length := by
  intro m
  induction m with
  | nil => intro sx; rfl
  | cons p rest ih =>
    intro sx
    unfold layoutFrom
    rw [List.length_cons, List.length_cons, ih]

theorem layoutFrom_y (gap ay : Int) :
    ∀ (m : List Panel) (sx : Int) (q : Position),
      q ∈ layoutFrom gap ay m sx → q.y = ay := by
  intro m
  induction m with
  | nil =>
    intro sx q hq
    exact absurd hq (List.not_mem_nil q)
  | cons p rest ih =>
    intro sx q hq
    unfold layoutFrom at hq
    rcases List.mem_cons.mp hq with hc | hc
    · rw [hc]
    · exact ih _ q hc

theorem uniformY_of {ps : List Position} {c : Int} (h : ∀ q ∈ ps, q.y = c) :
    uniformY ps = true := by
  cases ps with
  | nil => rfl
  | cons q rest =>
    unfold uniformY
    rw [List.all_eq_true]
    intro z hz
    have h1 := h z (List.mem_cons_of_mem q hz)
    have h2 := h q (List.mem_cons_self q rest)
    simp [h1, h2]

theorem layoutFrom_spaced (gap ay : Int) :
    ∀ (m : List Panel) (sx : Int),
      rowSpaced gap m (layoutFrom gap ay m sx) = true := by
  intro m
  induction m with
  | nil => intro sx; rfl
  | cons p rest ih =>
    intro sx
    cases rest with
    | nil => rfl
    | cons p2 rest2 =>
      show (((⟨sx + p.width + gap, ay⟩ : Position).x == sx + p.width + gap)
          && rowSpaced gap (p2 :: rest2)
              (layoutFrom gap ay (p2 :: rest2) (sx + p.width + gap))) = true
      rw [Bool.and_eq_true]
      exact ⟨by simp, ih (sx + p.width + gap)⟩

theorem goodLayout_of_fits (moving : List Panel) (cfg : Config) (winW : Int)
    (aid : String) (ax ay : Int) (i : Nat)
    (hfit : layoutFits moving cfg.panelGap ax ay winW i) :
    GoodLayout moving cfg winW
      ⟨aid, i, layoutAt moving cfg.panelGap ax ay i⟩ := by
  obtain ⟨hb1, hb2⟩ := hfit
  refine ⟨?_, ?_, ?_, hb1, hb2⟩
  · exact layoutFrom_length _ _ _ _
  · exact uniformY_of (fun q hq => layoutFrom_y _ _ _ _ q hq)
  · exact layoutFrom_spaced _ _ _ _

theorem fallbackAux_some (moving : List Panel) (gap ax ay winW : Int) :
    ∀ (rem i j : Nat) (ps : List Position),
      fallbackAux moving gap ax ay winW i rem = some (j, ps) →
      ps = layoutAt moving gap ax ay j ∧
      layoutFits moving gap ax ay winW j ∧
      i ≤ j ∧ j < i + rem ∧
      (∀ k, i ≤ k → k < j → ¬ layoutFits moving gap ax ay winW k) := by
  intro rem
  induction rem with
  | zero =>
    intro i j ps h
    exact absurd h (by simp [fallbackAux])
  | succ rem ih =>
    intro i j ps h
    have hstep : fallbackAux moving gap ax ay winW i (rem + 1)
        = if layoutFits moving gap ax ay winW i then
            some (i, layoutAt moving gap ax ay i)
          else fallbackAux moving gap ax ay winW (i + 1) rem := rfl
    rw [hstep] at h
    by_cases hfit : layoutFits moving gap ax ay winW i
    · rw [if_pos hfit] at h
      have heq : (i, layoutAt moving gap ax ay i) = (j, ps) := Option.some.inj h
      have hj : i = j := congrArg Prod.fst heq
      have hps2 : layoutAt moving gap ax ay i = ps := congrArg Prod.snd heq
      subst hj
      refine ⟨hps2.symm, hfit, le_refl i, by omega, ?_⟩
      intro k hk1 hk2
      omega
    · rw [if_neg hfit] at h
      obtain ⟨hps, hf, hij, hlt, hall⟩ := ih (i + 1) j ps h
      refine ⟨hps, hf, by omega, by omega, ?_⟩
      intro k hk1 hk2
      by_cases hk : k = i
      · rw [hk]
        exact hfit
      · exact hall k (by omega) hk2

theorem fallbackAux_none (moving : List Panel) (gap ax ay winW : Int) :
    ∀ (rem i : Nat),
      fallbackAux moving gap ax ay winW i rem = none →
      ∀ k, i ≤ k → k < i + rem → ¬ layoutFits moving gap ax ay winW k := by
  intro rem
  induction rem with
  | zero =>
    intro i _ k hk1 hk2
    omega
  | succ rem ih =>
    intro i h k hk1 hk2
    have hstep : fallbackAux moving gap ax ay winW i (rem + 1)
        = if layoutFits moving gap ax ay winW i then
            some (i, layoutAt moving gap ax ay i)
          else fallbackAux moving gap ax ay winW (i + 1) rem := rfl
    rw [hstep] at h
    by_cases hfit : layoutFits moving gap ax ay winW i
    · rw [if_pos hfit] at h
      exact absurd h (by simp)
    · rw [if_neg hfit] at h
      by_cases hk : k = i
      · rw [hk]
        exact hfit
      · exact ih (i + 1) h k (by omega) (by omega)

theorem anchorStep_good (moving : List Panel) (cfg : Config) (winW : Int)
    (gL gR gT gB : Int) (a : Anchor) (best : Option (Int × AnchorSnapResult))
    (hbest : ∀ d res, best = some (d, res) → GoodLayout moving cfg winW res) :
    ∀ d res, anchorStep moving cfg winW gL gR gT gB a best = some (d, res) →
      GoodLayout moving cfg winW res := by
  intro d res h
  unfold anchorStep at h
  by_cases hnear : ¬ (a.x ≥ gL - cfg.anchorThreshold ∧
      a.x ≤ gR + cfg.anchorThreshold ∧ a.y ≥ gT - cfg.anchorThreshold ∧
      a.y ≤ gB + cfg.anchorThreshold)
  · rw [if_pos hnear] at h
    exact hbest d res h
  · rw [if_neg hnear] at h
    simp only at h
    by_cases hoob : leftmostXOf (layoutAt moving cfg.panelGap a.x
        (if idHasBottom a.id then a.y - heightAt moving (closestGrip a.x a.y moving).1
          else a.y) (closestGrip a.x a.y moving).1) < 0 ∨
        rightmostXOf (layoutAt moving cfg.panelGap a.x
          (if idHasBottom a.id then a.y - heightAt moving (closestGrip a.x a.y moving).1
            else a.y) (closestGrip a.x a.y moving).1) moving > winW
    · rw [if_pos hoob] at h
      cases hfb : fallbackSearch moving cfg.panelGap a.x
          (if idHasBottom a.id then a.y - heightAt moving (closestGrip a.x a.y moving).1
            else a.y) winW with
      | none =>
        rw [hfb] at h
        exact hbest d res h
      | some pr =>
        rw [hfb] at h
        obtain ⟨j, tps⟩ := pr
        obtain ⟨hps, hfit, _, _, _⟩ :=
          fallbackAux_some moving cfg.panelGap a.x _ winW moving.length 0 j tps hfb
        have h2 : (if betterDist (closestGrip a.x a.y moving).2 best then
              some ((closestGrip a.x a.y moving).2,
                (⟨a.id, j, tps⟩ : AnchorSnapResult))
            else best) = some (d, res) := h
        by_cases hbd : betterDist (closestGrip a.x a.y moving).2 best = true
        · rw [if_pos hbd] at h2
          have hres : res = ⟨a.id, j, tps⟩ := by
            have := Option.some.inj h2
            exact (congrArg Prod.snd this).symm
          rw [hres, hps]
          exact goodLayout_of_fits moving cfg winW a.id a.x _ j hfit
        · rw [if_neg hbd] at h2
          exact hbest d res h2
    · rw [if_neg hoob] at h
      push_neg at hoob
      by_cases hbd : betterDist (closestGrip a.x a.y moving).2 best = true
      · rw [if_pos hbd] at h
        have hres : res = ⟨a.id, (closestGrip a.x a.y moving).1,
            layoutAt moving cfg.panelGap a.x
              (if idHasBottom a.id then a.y - heightAt moving (closestGrip a.x a.y moving).1
                else a.y) (closestGrip a.x a.y moving).1⟩ := by
          have := Option.some.inj h
          exact (congrArg Prod.snd this).symm
        rw [hres]
        exact goodLayout_of_fits moving cfg winW a.id a.x _ _ ⟨by omega, by omega⟩
      · rw [if_neg hbd] at h
        exact hbest d res h

theorem anchorLoop_good (moving : List Panel) (cfg : Config) (winW : Int)
    (gL gR gT gB : Int) :
    ∀ (as : List Anchor) (best : Option (Int × AnchorSnapResult)),
      (∀ d res, best = some (d, res) → GoodLayout moving cfg winW res) →
      ∀ d res, anchorLoop moving cfg winW gL gR gT gB as best = some (d, res) →
        GoodLayout moving cfg winW res := by
  intro as
  induction as with
  | nil =>
    intro best hbest d res h
    exact hbest d res h
  | cons a rest ih =>
    intro best hbest d res h
    exact ih (anchorStep moving cfg winW gL gR gT gB a best)
      (fun d0 res0 h0 => anchorStep_good moving cfg winW gL gR gT gB a best
        hbest d0 res0 h0) d res h

/-- Claim C10: every non-null findNearestAnchor result carries a uniformly
laid-out, in-bounds position list: one position per moving panel, all
sharing one y, consecutive positions advancing by the preceding panel's
width plus the gap, leftmost x at least 0 and the rightmost panel's right
edge at most the window width. -/
theorem anchor_result_sound (anchors : List Anchor) (moving : List Panel)
    (cfg : Config) (winW : Int) (res : AnchorSnapResult)
    (h : findNearestAnchor anchors moving cfg winW = some res) :
    GoodLayout moving cfg winW res := by
  unfold findNearestAnchor at h
  cases moving with
  | nil => exact absurd h (by simp)
  | cons m0 mrest =>
    cases anchors with
    | nil => exact absurd h (by simp)
    | cons a0 arest =>
      simp only [Option.map_eq_some'] at h
      obtain ⟨pr, hpr, hsnd⟩ := h
      obtain ⟨d0, res0⟩ := pr
      have hres : res0 = res := hsnd
      rw [← hres]
      exact anchorLoop_good (m0 :: mrest) cfg winW m0.x _ m0.y _ (a0 :: arest)
        none (fun d1 r1 h1 => absurd h1 (by simp)) d0 res0 hpr

/-- Concrete witness for anchor_result_sound: the 3-panel fallback scenario
returns a result, and the theorem yields its layout properties. -/
theorem anchor_result_sound_witness :
    findNearestAnchor [fbAnchor] fbMoving defaultConfig 1000
      = some ⟨"a", 1, [⟨100, 10⟩, ⟨400, 10⟩, ⟨700, 10⟩]⟩ ∧
    GoodLayout fbMoving defaultConfig 1000
      ⟨"a", 1, [⟨100, 10⟩, ⟨400, 10⟩, ⟨700, 10⟩]⟩ :=
  ⟨by decide,
    anchor_result_sound [fbAnchor] fbMoving defaultConfig 1000
      ⟨"a", 1, [⟨100, 10⟩, ⟨400, 10⟩, ⟨700, 10⟩]⟩ (by decide)⟩

/-- Claim C4 (amended): when the grip-closest docking index lays the group
out of horizontal bounds, the fallback tries every docking index in order
and accepts exactly the first whose layout fits within [0, winW]; only when
no index fits is the anchor rejected. In particular, a 3-panel group whose
index-0 layout runs off the right edge while index 1 fits docks with
dockPanelIndex 1 and an in-bounds layout. -/
theorem anchor_fallback_first_fit :
    (∀ (moving : List Panel) (gap ax ay winW : Int) (j : Nat)
        (ps : List Position),
      fallbackSearch moving gap ax ay winW = some (j, ps) →
      ps = layoutAt moving gap ax ay j ∧
      layoutFits moving gap ax ay winW j ∧
      (∀ k, k < j → ¬ layoutFits moving gap ax ay winW k)) ∧
    (∀ (moving : List Panel) (gap ax ay winW : Int),
      fallbackSearch moving gap ax ay winW = none →
      ∀ k, k < moving.length → ¬ layoutFits moving gap ax ay winW k) ∧
    (rightmostXOf (layoutAt fbMoving 0 400 10 0) fbMoving > 1000 ∧
      ¬ layoutFits fbMoving 0 400 10 1000 0 ∧
      layoutFits fbMoving 0 400 10 1000 1 ∧
      findNearestAnchor [fbAnchor] fbMoving defaultConfig 1000
        = some ⟨"a", 1, [⟨100, 10⟩, ⟨400, 10⟩, ⟨700, 10⟩]⟩ ∧
      leftmostXOf [(⟨100, 10⟩ : Position), ⟨400, 10⟩, ⟨700, 10⟩] ≥ 0 ∧
      rightmostXOf [(⟨100, 10⟩ : Position), ⟨400, 10⟩, ⟨700, 10⟩] fbMoving
        ≤ 1000) := by
  refine ⟨?_, ?_, by decide⟩
  · intro moving gap ax ay winW j ps h
    obtain ⟨hps, hfit, _, _, hall⟩ :=
      fallbackAux_some moving gap ax ay winW moving.length 0 j ps h
    exact ⟨hps, hfit, fun k hk => hall k (by omega) hk⟩
  · intro moving gap ax ay winW h k hk
    exact fallbackAux_none moving gap ax ay winW moving.length 0 h k
      (by omega) (by omega)

/-- Concrete witness for anchor_fallback_first_fit: applying the first-fit
characterisation to the concrete fallback search. -/
theorem anchor_fallback_first_fit_witness :
    fallbackSearch fbMoving 0 400 10 1000
      = some (1, [⟨100, 10⟩, ⟨400, 10⟩, ⟨700, 10⟩]) ∧
    ([⟨100, 10⟩, ⟨400, 10⟩, ⟨700, 10⟩] : List Position)
      = layoutAt fbMoving 0 400 10 1 ∧
    layoutFits fbMoving 0 400 10 1000 1 :=
  ⟨by decide,
    (anchor_fallback_first_fit.1 fbMoving 0 400 10 1000 1
      [⟨100, 10⟩, ⟨400, 10⟩, ⟨700, 10⟩] (by decide)).1,
    (anchor_fallback_first_fit.1 fbMoving 0 400 10 1000 1
      [⟨100, 10⟩, ⟨400, 10⟩, ⟨700, 10⟩] (by decide)).2.1⟩

/-- Counterexample for claim C4 as stated: in the claimed 3-panel scenario
where docking index 0 pushes the group off the LEFT edge, index 1 can
never fit (every later docking index only shifts the layout further left),
so the promised outcome dockPanelIndex 1 is impossible: here indices 1 and
2 also fail and findNearestAnchor rejects the anchor outright. -/
theorem anchor_fallback_cx :
    leftmostXOf (layoutAt flMoving 0 (-50) 10 0) < 0 ∧
    ¬ layoutFits flMoving 0 (-50) 10 1000 1 ∧
    ¬ layoutFits flMoving 0 (-50) 10 1000 2 ∧
    findNearestAnchor [flAnchor] flMoving defaultConfig 1000 = none := by
  decide
